import Mathlib

/-!
# dllloader: a user-space loader for PE/DLL images

Shallow embedding of `src/dllloader.cpp`.

Conventions of the embedding.

* The program only builds for 32-bit targets (it casts pointers to `uint32_t`),
  so `size_t`, `unsigned`, `uint32_t` and `off_t` are 32 bits wide.  They are
  natural numbers here and every C++ operation that can wrap is followed by an
  explicit `% 2 ^ 32` (`% 2 ^ 16` for `uint16_t`).
* A byte is a `Fin 256`; a `std::string` is the list of its bytes.
* `std::map` is an association list: `m[k] = v` puts `(k, v)` in front and
  `find` returns the first entry for the key, which is the last one assigned.
* A pointer into `_data` is the byte offset from `&_data[0]`; `NULL` is `none`.
* A C++ exception is the `error` of `Except`.
-/

namespace DllLoader

/-- One byte of the file or of the image buffer. -/
abbrev Byte := Fin 256

/-- Bytes of a `std::string`. -/
abbrev CString := List Byte

/-- Number of values of a 32-bit machine word. -/
def W32 : Nat := 2 ^ 32

/-- Number of values of a 16-bit machine word. -/
def W16 : Nat := 2 ^ 16

/-- Bytes of a string literal. -/
def str (s : String) : CString := s.toList.map (fun c => Fin.ofNat c.toNat)

/-- The exceptions the program throws (`posixerror`, `loadererror`,
`unimplemented`, and `bad_alloc` for a `std::vector` whose storage the 32-bit
target does not give), and `undefined` for a read or write outside the storage
of a `std::vector`, through `operator[]` or a raw pointer, which is no
exception and is not caught: from there on the program has no defined
behaviour.  `diverged` is the answer of a loop of the model whose bound was
used up. -/
inductive Error where
  | posixerror (fn : String)
  | loadererror (msg : String)
  | unimplemented
  | bad_alloc
  | undefined
  | diverged
  deriving DecidableEq, Repr

/-! ## The process-wide last-error slot -/

/-- Global `unsigned g_lasterror`. -/
structure Globals where
  g_lasterror : Nat
  deriving DecidableEq, Repr

/-- Global `GetLastError()`. -/
def GetLastError (g : Globals) : Nat := g.g_lasterror

/-- Global `SetLastError(err)`. -/
def SetLastError (_g : Globals) (err : Nat) : Globals := { g_lasterror := err }

/-- Error-code constants of `dllloader.h`, which is not among the sources:
they are parameters of the model. -/
structure ErrorCodes where
  ERROR_MOD_NOT_FOUND : Nat
  ERROR_PROC_NOT_FOUND : Nat
  ERROR_INVALID_HANDLE : Nat
  ERROR_GEN_FAILURE : Nat
  deriving DecidableEq, Repr

/-- The values that the Win32 headers give these constants, for the
examples. -/
def win32Codes : ErrorCodes :=
  { ERROR_MOD_NOT_FOUND := 126, ERROR_PROC_NOT_FOUND := 127,
    ERROR_INVALID_HANDLE := 6, ERROR_GEN_FAILURE := 31 }

/-! ## posixfile -/

/-- Class `posixfile`: the bytes of the opened file and the stream cursor. -/
structure posixfile where
  bytes : List Byte
  pos : Nat
  deriving DecidableEq, Repr

namespace posixfile

/-- Constructor `posixfile(name)`: `fopen` gives the content of the file, or
nothing and then `posixerror("fopen")` is thrown. -/
def fopen (content : Option (List Byte)) : Except Error posixfile :=
  match content with
  | some bs => .ok { bytes := bs, pos := 0 }
  | none => .error (.posixerror "fopen")

/-- Method `seek(o)` with `SEEK_SET`: `o` is an `off_t`, a signed 32-bit value
given by its two's complement; `fseeko` refuses a negative offset and accepts
any other, also one past the end of the file. -/
def seek (f : posixfile) (o : Nat) : Except Error posixfile :=
  if o % W32 < 2 ^ 31 then .ok { f with pos := o % W32 }
  else .error (.posixerror "fseek")

/-- Method `readexact(p, n)`: `fread(p, n, 1, _f)` returns 1 only when one item
of `n` bytes was read; it returns 0 on a short read and also when `n` is 0. -/
def readexact (f : posixfile) (n : Nat) : Except Error (List Byte × posixfile) :=
  if n = 0 then .error (.posixerror "fread")
  else if f.pos + n ≤ f.bytes.length then
    .ok ((f.bytes.drop f.pos).take n, { f with pos := f.pos + n })
  else .error (.posixerror "fread")

/-- Method `readmax(p, nmax)`: `fread(p, 1, nmax, _f)` reads the bytes that are
there, at most `nmax`. -/
def readmax (f : posixfile) (nmax : Nat) : List Byte × posixfile :=
  let got := (f.bytes.drop f.pos).take nmax
  (got, { f with pos := f.pos + got.length })

end posixfile

/-! ## Little-endian integers -/

/-- Value of a little-endian byte sequence. -/
def le : List Byte → Nat
  | [] => 0
  | b :: bs => b.val + 256 * le bs

/-- The `uint16_t` at byte offset `o` of a block that was read. -/
def u16At (bs : List Byte) (o : Nat) : Nat := le ((bs.drop o).take 2)

/-- The `uint32_t` at byte offset `o` of a block that was read. -/
def u32At (bs : List Byte) (o : Nat) : Nat := le ((bs.drop o).take 4)

/-! ## PEFileInfo: the records -/

/-- Struct `PEFileInfo::sectioninfo`. -/
structure sectioninfo where
  fileoffset : Nat
  filesize : Nat
  virtualaddress : Nat
  virtualsize : Nat
  deriving DecidableEq, Repr

/-- Struct `PEFileInfo::exportsymbol`; `resize` value-initialises a new record:
empty name, ordinal 0, virtual address 0. -/
structure exportsymbol where
  name : CString := []
  ordinal : Nat := 0
  virtualaddress : Nat := 0
  deriving DecidableEq, Repr

/-- A value-initialised `exportsymbol`. -/
def exportsymbol.init : exportsymbol := { name := [], ordinal := 0, virtualaddress := 0 }

/-- Struct `PEFileInfo::importsymbol`.  The parser declares `importsymbol sym;`
without an initialiser, so `ordinal` holds a value only once it is assigned:
`none` is the field that was never assigned. -/
structure importsymbol where
  dllname : CString := []
  name : CString := []
  ordinal : Option Nat := none
  virtualaddress : Nat := 0
  deriving DecidableEq, Repr

/-- Struct `PEFileInfo::relocinfo`. -/
structure relocinfo where
  virtualaddress : Nat
  type : Nat
  deriving DecidableEq, Repr

/-- Data members of class `PEFileInfo`. -/
structure PEFileInfo where
  _vbase : Nat
  _sections : List sectioninfo
  _imports : List importsymbol
  _exports : List exportsymbol
  _relocs : List relocinfo
  deriving DecidableEq, Repr

/-- Subtraction of 32-bit unsigned values. -/
def sub32 (a b : Nat) : Nat := (a % W32 + W32 - b % W32) % W32

/-- Constructing or resizing a `std::vector` to `n` elements of `sz` bytes:
the vector refuses a block of `2 ^ 31` bytes or more (above `PTRDIFF_MAX`, the
most that `max_size` allows on the 32-bit target); below that the allocator is
taken to have the memory. -/
def vectorAlloc (n sz : Nat) : Except Error Unit :=
  if n * sz < 2 ^ 31 then .ok () else .error .bad_alloc

/-! ## PEFileInfo: the section queries -/

/-- Loop of `PEFileInfo::minvirtaddr` from section index `i` with running
value `a`. -/
def minvirtaddrFrom : Nat → Nat → List sectioninfo → Nat
  | _, a, [] => a
  | i, a, s :: rest =>
    minvirtaddrFrom (i + 1)
      (if i = 0 ∨ s.virtualaddress < a then s.virtualaddress else a) rest

/-- Method `PEFileInfo::minvirtaddr`. -/
def minvirtaddr (sections : List sectioninfo) : Nat :=
  minvirtaddrFrom 0 0 sections

/-- The `uint32_t sectionend` of `PEFileInfo::maxvirtaddr`. -/
def sectionend (s : sectioninfo) : Nat :=
  (s.virtualaddress + max s.virtualsize s.filesize) % W32

/-- Loop of `PEFileInfo::maxvirtaddr` from section index `i` with running
value `a`. -/
def maxvirtaddrFrom : Nat → Nat → List sectioninfo → Nat
  | _, a, [] => a
  | i, a, s :: rest =>
    maxvirtaddrFrom (i + 1) (if i = 0 ∨ sectionend s > a then sectionend s else a) rest

/-- Method `PEFileInfo::maxvirtaddr`. -/
def maxvirtaddr (sections : List sectioninfo) : Nat :=
  maxvirtaddrFrom 0 0 sections

/-- Loop of `PEFileInfo::rva2fileofs` over the sections, `va` being the
argument after `rva += _vbase`. -/
def rva2fileofsLoop (va : Nat) : List sectioninfo → Except Error Nat
  | [] => .error (.loadererror "invalid offset")
  | s :: rest =>
    if s.virtualaddress ≤ va ∧ va < (s.virtualaddress + s.virtualsize) % W32 then
      .ok ((sub32 va s.virtualaddress + s.fileoffset) % W32)
    else rva2fileofsLoop va rest

/-- Method `PEFileInfo::rva2fileofs`. -/
def rva2fileofs (vbase : Nat) (sections : List sectioninfo) (rva : Nat) : Except Error Nat :=
  rva2fileofsLoop ((rva + vbase) % W32) sections

/-! ## PEFileInfo: reading up to a zero element -/

/-- The first `n` whole elements of `w` bytes of a block. -/
def elems (w : Nat) : Nat → List Byte → List Nat
  | 0, _ => []
  | n + 1, bs => le (bs.take w) :: elems w n (bs.drop w)

/-- Index of the first zero element, when there is one. -/
def firstZero : List Nat → Option Nat
  | [] => none
  | e :: es => if e = 0 then some 0 else (firstZero es).map (· + 1)

/-- The `do ... while (n>0)` loop of `PEFileInfo::read_until_zero` for an
element type of `w` bytes; `fuel` bounds the number of chunks. -/
def read_until_zero_loop (w : Nat) : Nat → posixfile → List Nat → Except Error (List Nat × posixfile)
  | 0, _, _ => .error .diverged
  | fuel + 1, f, v =>
    let r := f.readmax (w * 256)
    let n := r.1.length / w
    let es := elems w n r.1
    match firstZero es with
    | some j => .ok (v ++ es.take j, r.2)
    | none =>
      if n > 0 then read_until_zero_loop w fuel r.2 (v ++ es)
      else .ok (v ++ es, r.2)

/-- Method `PEFileInfo::read_until_zero<T>` with `sizeof(T) = w`.  Every chunk
but the last takes bytes from the file, so the file length bounds the loop. -/
def read_until_zero (vbase : Nat) (sections : List sectioninfo) (w : Nat)
    (f : posixfile) (rva : Nat) (v : List Nat) : Except Error (List Nat × posixfile) := do
  let o ← rva2fileofs vbase sections rva
  let f1 ← f.seek o
  read_until_zero_loop w (f.bytes.length + 1) f1 v

/-- Method `PEFileInfo::readstring`. -/
def readstring (vbase : Nat) (sections : List sectioninfo) (f : posixfile) (rva : Nat) :
    Except Error (CString × posixfile) := do
  let r ← read_until_zero vbase sections 1 f rva []
  .ok (r.1.map (fun c => Fin.ofNat c), r.2)

/-! ## PEFileInfo: the import directory -/

/-- Struct `import_header`. -/
structure import_header where
  rva_lookup : Nat
  timestamp : Nat
  forwarder : Nat
  rva_dllname : Nat
  rva_address : Nat
  deriving DecidableEq, Repr

/-- The 20 bytes of an import descriptor as an `import_header`. -/
def import_header.decode (bs : List Byte) : import_header :=
  { rva_lookup := u32At bs 0, timestamp := u32At bs 4, forwarder := u32At bs 8,
    rva_dllname := u32At bs 12, rva_address := u32At bs 16 }

/-- Method `PEFileInfo::isnull`. -/
def isnull (h : import_header) : Bool :=
  h.rva_lookup == 0 && h.timestamp == 0 && h.forwarder == 0 && h.rva_dllname == 0
    && h.rva_address == 0

/-- Inner loop of `PEFileInfo::read_import_table` from index `i` of the lookup
table: the records it pushes onto `_imports`. -/
def importSymbols (vbase : Nat) (sections : List sectioninfo) (impdllname : CString)
    (rva_address : Nat) : Nat → List Nat → posixfile → Except Error (List importsymbol × posixfile)
  | _, [], f => .ok ([], f)
  | i, w :: rest, f =>
    let va := (vbase + rva_address + 4 * i) % W32
    if w &&& 0x80000000 ≠ 0 then do
      let sym : importsymbol :=
        { dllname := impdllname, ordinal := some (w &&& 0x7fffffff), virtualaddress := va }
      let r ← importSymbols vbase sections impdllname rva_address (i + 1) rest f
      .ok (sym :: r.1, r.2)
    else do
      let nm ← readstring vbase sections f ((w + 2) % W32)
      let sym : importsymbol := { dllname := impdllname, name := nm.1, virtualaddress := va }
      let r ← importSymbols vbase sections impdllname rva_address (i + 1) rest nm.2
      .ok (sym :: r.1, r.2)

/-- Outer loop of `PEFileInfo::read_import_table` from descriptor `nimp`: the
records it pushes onto `_imports`; `fuel` bounds the number of descriptors. -/
def read_import_table_loop (vbase : Nat) (sections : List sectioninfo) (rva : Nat) :
    Nat → Nat → posixfile → Except Error (List importsymbol × posixfile)
  | 0, _, _ => .error .diverged
  | fuel + 1, nimp, f => do
    let o ← rva2fileofs vbase sections rva
    let f1 ← f.seek ((o + 20 * nimp) % W32)
    let hb ← f1.readexact 20
    let imphdr := import_header.decode hb.1
    if isnull imphdr then .ok ([], hb.2)
    else do
      let ilt ← read_until_zero vbase sections 4 hb.2 imphdr.rva_lookup []
      let impdllname ← readstring vbase sections ilt.2 imphdr.rva_dllname
      let syms ← importSymbols vbase sections impdllname.1 imphdr.rva_address 0 ilt.1 impdllname.2
      let more ← read_import_table_loop vbase sections rva fuel (nimp + 1) syms.2
      .ok (syms.1 ++ more.1, more.2)

/-- Method `PEFileInfo::read_import_table`; the argument `size` is not used by
the source.  Every descriptor is read from the file 20 bytes further on, so
the file length bounds the loop. -/
def read_import_table (vbase : Nat) (sections : List sectioninfo) (f : posixfile)
    (rva _size : Nat) : Except Error (List importsymbol × posixfile) :=
  read_import_table_loop vbase sections rva (f.bytes.length + 1) 0 f

/-! ## PEFileInfo: the base-relocation directory -/

/-- One 16-bit entry of a relocation block as a `relocinfo`. -/
def relocOfEntry (vbase page_rva e : Nat) : relocinfo :=
  { virtualaddress := (vbase + page_rva + (e &&& 0xfff)) % W32, type := e >>> 12 }

/-- The `while (roff<rva+size)` loop of `PEFileInfo::read_reloc_table`: the
records it pushes onto `_relocs`; `fuel` bounds the number of blocks.  The
vector `relocs` has `(hdr.size - 8) / 2` entries and `hdr.size - 8` bytes are
read into it: with an odd `hdr.size` that is one byte more than the vector
holds, a write outside its storage. -/
def read_reloc_table_loop (vbase limit : Nat) :
    Nat → Nat → posixfile → Except Error (List relocinfo × posixfile)
  | 0, _, _ => .error .diverged
  | fuel + 1, roff, f =>
    if roff < limit then do
      let hb ← f.readexact 8
      let page_rva := u32At hb.1 0
      let size := u32At hb.1 4
      let n := sub32 size 8 / 2
      vectorAlloc n 2
      if sub32 size 8 ≤ 2 * n then do
        let rb ← hb.2.readexact (sub32 size 8)
        let rs := (elems 2 n rb.1).map (relocOfEntry vbase page_rva)
        let more ← read_reloc_table_loop vbase limit fuel ((roff + size) % W32) rb.2
        .ok (rs ++ more.1, more.2)
      else .error .undefined
    else .ok ([], f)

/-- Method `PEFileInfo::read_reloc_table`.  Every block takes bytes from the
file, so the file length bounds the loop. -/
def read_reloc_table (vbase : Nat) (sections : List sectioninfo) (f : posixfile)
    (rva size : Nat) : Except Error (List relocinfo × posixfile) := do
  let o ← rva2fileofs vbase sections rva
  let f1 ← f.seek o
  read_reloc_table_loop vbase ((rva + size) % W32) (f.bytes.length + 1) rva f1

/-! ## PEFileInfo: the export directory -/

/-- First loop of `PEFileInfo::read_export_table` at index `i`: the record
for the address-table entry `e`.  A forwarded entry leaves the virtual address
of the value-initialised record, which is 0. -/
def exportOfEat (vbase rva size ordbase i e : Nat) : exportsymbol :=
  { ordinal := (i + ordbase) % W32,
    virtualaddress := if e ≥ rva ∧ e < (rva + size) % W32 then 0 else (vbase + e) % W32 }

/-- First loop of `PEFileInfo::read_export_table` from index `i`. -/
def exportsOfEat (vbase rva size ordbase : Nat) : Nat → List Nat → List exportsymbol
  | _, [] => []
  | i, e :: rest =>
    exportOfEat vbase rva size ordbase i e :: exportsOfEat vbase rva size ordbase (i + 1) rest

/-- Body `if (eotlist[i]>=_exports.size()) ...` of the second loop: grow the
vector with value-initialised records and give the last one its ordinal. -/
def growExports (exports : List exportsymbol) (ordbase eot : Nat) : List exportsymbol :=
  if eot ≥ exports.length then
    (exports ++ List.replicate (eot + 1 - exports.length) exportsymbol.init).modify
      (fun x => { x with ordinal := (eot + ordbase) % W32 }) eot
  else exports

/-- Second loop of `PEFileInfo::read_export_table` over the name pointers and
the ordinal table. -/
def nameExports (vbase : Nat) (sections : List sectioninfo) (ordbase : Nat) :
    List Nat → List Nat → List exportsymbol → posixfile →
    Except Error (List exportsymbol × posixfile)
  | ent :: ents, eot :: eots, exports, f => do
    let grown := growExports exports ordbase eot
    let nm ← readstring vbase sections f ent
    nameExports vbase sections ordbase ents eots
      (grown.modify (fun x => { x with name := nm.1 }) eot) nm.2
  | _, _, exports, f => .ok (exports, f)

/-- Method `PEFileInfo::read_export_table`. -/
def read_export_table (vbase : Nat) (sections : List sectioninfo) (f : posixfile)
    (rva size : Nat) : Except Error (List exportsymbol × posixfile) := do
  let o ← rva2fileofs vbase sections rva
  let f1 ← f.seek o
  let exphdr ← f1.readexact 40
  let ordbase := u32At exphdr.1 16
  let eatcnt := u32At exphdr.1 20
  let namecnt := u32At exphdr.1 24
  let rva_eat := u32At exphdr.1 28
  let rva_name := u32At exphdr.1 32
  let rva_ordinal := u32At exphdr.1 36
  let o1 ← rva2fileofs vbase sections rva_eat
  let f2 ← exphdr.2.seek o1
  vectorAlloc eatcnt 4
  let eat ← f2.readexact ((4 * eatcnt) % W32)
  let eatlist := elems 4 eatcnt eat.1
  let o2 ← rva2fileofs vbase sections rva_name
  let f3 ← eat.2.seek o2
  vectorAlloc namecnt 4
  let ent ← f3.readexact ((4 * namecnt) % W32)
  let entlist := elems 4 namecnt ent.1
  let o3 ← rva2fileofs vbase sections rva_ordinal
  let f4 ← ent.2.seek o3
  vectorAlloc namecnt 2
  let eot ← f4.readexact ((2 * namecnt) % W32)
  let eotlist := elems 2 namecnt eot.1
  nameExports vbase sections ordbase entlist eotlist
    (exportsOfEat vbase rva size ordbase 0 eatlist) eot.2

/-! ## PEFileInfo: the constructor -/

/-- The `o32_header` number `i` of the section table as a `sectioninfo`. -/
def sectionOfO32 (vbase : Nat) (ob : List Byte) (i : Nat) : sectioninfo :=
  { fileoffset := u32At ob (40 * i + 20), filesize := u32At ob (40 * i + 16),
    virtualaddress := (vbase + u32At ob (40 * i + 12)) % W32,
    virtualsize := u32At ob (40 * i + 8) }

/-- Element `info[k]` of the data directories that were read, as
`(offset, size)`; a `k` outside the vector is a read outside its storage. -/
def infoAt (ib : List Byte) (n k : Nat) : Except Error (Nat × Nat) :=
  if k < n then .ok (u32At ib (8 * k), u32At ib (8 * k + 4)) else .error .undefined

/-- Constructor `PEFileInfo::PEFileInfo(f)`.  Offsets in the headers:
`mz.lfanew` 60 of 64; of the 120 bytes of `peheader`, `objcnt` 6, `opthdrsize`
20, `coffmagic` 24, `vbase` 52, `hdrextra` 116. -/
def PEFileInfo.parse (f : posixfile) : Except Error (PEFileInfo × posixfile) := do
  let f1 ← f.seek 0
  let mz ← f1.readexact 64
  let lfanew := u32At mz.1 60
  let f2 ← mz.2.seek lfanew
  let pe ← f2.readexact 120
  let hdrextra := u32At pe.1 116
  let infoN := if hdrextra > 0x10 then 0x10 else hdrextra
  let vbase := u32At pe.1 52
  let info ← pe.2.readexact (8 * infoN)
  let opthdrsize := u16At pe.1 20
  let f3 ← info.2.seek ((lfanew + opthdrsize + 24) % W32)
  let objcnt := u16At pe.1 6
  let o32 ← f3.readexact (40 * objcnt)
  let sections := (List.range objcnt).map (sectionOfO32 vbase o32.1)
  let exp ← infoAt info.1 infoN 0
  let exports ←
    if exp.2 ≠ 0 then read_export_table vbase sections o32.2 exp.1 exp.2
    else .ok ([], o32.2)
  let imp ← infoAt info.1 infoN 1
  let imports ←
    if imp.2 ≠ 0 then read_import_table vbase sections exports.2 imp.1 imp.2
    else .ok ([], exports.2)
  let fix ← infoAt info.1 infoN 5
  let relocs ←
    if fix.2 ≠ 0 then read_reloc_table vbase sections imports.2 fix.1 fix.2
    else .ok ([], imports.2)
  .ok ({ _vbase := vbase, _sections := sections, _imports := imports.1,
         _exports := exports.1, _relocs := relocs.1 }, relocs.2)

/-! ## DllModule

The buffer `_data` is a list of bytes.  The source indexes it without a check
and reads and writes through the raw pointer `&_data[off]`.  Every operation of
the model that does so (`copySections`, `applyReloc`, `importLoop`) first
looks whether the bytes it is about to read or write lie inside the buffer,
and stops with `undefined` when they do not.  The helpers `writeBytes` and
`readBytes` are therefore only ever applied to blocks inside the buffer. -/

/-- Addresses of the host functions that `DllModule::import` writes into the
slots of the imports (32-bit function pointers). -/
structure Stubs where
  LocalAlloc : Nat
  LocalFree : Nat
  DisableThreadLibraryCalls : Nat
  SetLastError : Nat
  malloc : Nat
  free : Nat
  undefined : Nat
  dummy : Nat
  deriving DecidableEq, Repr

/-- Data members of class `DllModule` (the file `_f` is only read while the
module is built).  The maps hold the pointers `&_data[off]` as the offsets
`off`; `pointerOf` gives the machine pointer. -/
structure DllModule where
  _pe : PEFileInfo
  _exportsbyname : List (CString × Nat)
  _exportsbyordinal : List (Nat × Nat)
  _data : List Byte
  deriving DecidableEq, Repr

/-- Copy a block of bytes into the buffer from offset `off` on; applied to
blocks that lie inside the buffer. -/
def writeBytes : List Byte → Nat → List Byte → List Byte
  | data, _, [] => data
  | data, off, b :: bs => writeBytes (data.set off b) (off + 1) bs

/-- The `n` bytes of the buffer from offset `off` on; applied to blocks that
lie inside the buffer. -/
def readBytes (data : List Byte) (off : Nat) : Nat → List Byte
  | 0 => []
  | n + 1 => data.getD off 0 :: readBytes data (off + 1) n

/-- The `n` little-endian bytes of a value. -/
def bytesLE : Nat → Nat → List Byte
  | 0, _ => []
  | n + 1, v => Fin.ofNat v :: bytesLE n (v / 256)

/-- Read `*(uint16_t*)p` at offset `off`. -/
def load16 (data : List Byte) (off : Nat) : Nat := le (readBytes data off 2)

/-- Read `*(uint32_t*)p` at offset `off`. -/
def load32 (data : List Byte) (off : Nat) : Nat := le (readBytes data off 4)

/-- Write `*(uint16_t*)p` at offset `off`. -/
def store16 (data : List Byte) (off v : Nat) : List Byte := writeBytes data off (bytesLE 2 v)

/-- Write `*(uint32_t*)p` at offset `off`. -/
def store32 (data : List Byte) (off v : Nat) : List Byte := writeBytes data off (bytesLE 4 v)

/-- Section loop of `DllModule::load_sections`: seek to the section in the
file and read `filesize` bytes to `&_data[virtualaddress - minvirtaddr]`.
`fread` writes through that pointer: when the `filesize` bytes from there on do
not lie inside the buffer the write is outside the storage of `_data`.  The
model looks at this before the read, since `fread` also writes the bytes of a
read that comes out short. -/
def copySections (minva : Nat) :
    List sectioninfo → posixfile → List Byte → Except Error (List Byte × posixfile)
  | [], f, data => .ok (data, f)
  | s :: rest, f, data => do
    let f1 ← f.seek s.fileoffset
    if sub32 s.virtualaddress minva + s.filesize ≤ data.length then do
      let r ← f1.readexact s.filesize
      copySections minva rest r.2 (writeBytes data (sub32 s.virtualaddress minva) r.1)
    else .error .undefined

/-- Export loop of `DllModule::load_sections`: a record with an empty name goes
to the ordinal map, any other record to the name map. -/
def indexExports (minva : Nat) :
    List exportsymbol → List (CString × Nat) × List (Nat × Nat) →
    List (CString × Nat) × List (Nat × Nat)
  | [], maps => maps
  | e :: rest, maps =>
    if e.name.isEmpty then
      indexExports minva rest
        (maps.1, (e.ordinal, sub32 e.virtualaddress minva) :: maps.2)
    else
      indexExports minva rest
        ((e.name, sub32 e.virtualaddress minva) :: maps.1, maps.2)

/-- Method `DllModule::load_sections`; `resize` gives a buffer of zero bytes,
or throws when the vector refuses the size. -/
def load_sections (f : posixfile) (pe : PEFileInfo) : Except Error DllModule := do
  let minva := minvirtaddr pe._sections
  vectorAlloc (sub32 (maxvirtaddr pe._sections) minva) 1
  let data := List.replicate (sub32 (maxvirtaddr pe._sections) minva) (0 : Byte)
  let r ← copySections minva pe._sections f data
  let maps := indexExports minva pe._exports ([], [])
  .ok { _pe := pe, _exportsbyname := maps.1, _exportsbyordinal := maps.2, _data := r.1 }

/-- The `switch` of `DllModule::relocate` for one relocation at buffer offset
`off`.  The kinds 1 and 2 read and write `*(uint16_t*)p`, the kind 3
`*(uint32_t*)p`, with `p = &_data[off]`: when that word does not lie inside
the buffer the access is outside the storage of `_data`.  The kind 0 and the
kinds above 3 do not dereference `p`. -/
def applyReloc (delta : Nat) (data : List Byte) (off type : Nat) : Except Error (List Byte) :=
  match type with
  | 0 => .ok data
  | 1 =>
    if off + 2 ≤ data.length then
      .ok (store16 data off ((load16 data off + delta >>> 16) % W16))
    else .error .undefined
  | 2 =>
    if off + 2 ≤ data.length then
      .ok (store16 data off ((load16 data off + (delta &&& 0xFFFF)) % W16))
    else .error .undefined
  | 3 =>
    if off + 4 ≤ data.length then
      .ok (store32 data off ((load32 data off + delta) % W32))
    else .error .undefined
  | 4 => .error .unimplemented
  | _ => .error .unimplemented

/-- Loop of `DllModule::relocate`. -/
def relocateLoop (delta data_rva : Nat) : List relocinfo → List Byte → Except Error (List Byte)
  | [], data => .ok data
  | r :: rest, data => do
    let d ← applyReloc delta data (sub32 r.virtualaddress data_rva) r.type
    relocateLoop delta data_rva rest d

/-- The `uint32_t delta` of `DllModule::relocate`, `base` being the address of
`_data[0]`. -/
def relocDelta (base : Nat) (sections : List sectioninfo) : Nat :=
  sub32 base (minvirtaddr sections % W32)

/-- Method `DllModule::relocate`, `base` being the address of `_data[0]`. -/
def DllModule.relocate (m : DllModule) (base : Nat) : Except Error DllModule := do
  let data_rva := minvirtaddr m._pe._sections % W32
  let d ← relocateLoop (relocDelta base m._pe._sections) data_rva m._pe._relocs m._data
  .ok { m with _data := d }

/-- The chain of name comparisons of `DllModule::import`. -/
def stubFor (st : Stubs) (name : CString) : Nat :=
  if name = str "LocalAlloc" then st.LocalAlloc
  else if name = str "LocalFree" then st.LocalFree
  else if name = str "DisableThreadLibraryCalls" then st.DisableThreadLibraryCalls
  else if name = str "SetLastError" then st.SetLastError
  else if name = str "malloc" then st.malloc
  else if name = str "free" then st.free
  else if name = str "_adjust_fdiv" then st.undefined
  else st.dummy

/-- Loop of `DllModule::import`: `*p = ...` with `p =
(uint32_t*)&_data[virtualaddress - data_rva]`.  When the four bytes of the slot
do not lie inside the buffer the write is outside the storage of `_data`. -/
def importLoop (st : Stubs) (data_rva : Nat) :
    List importsymbol → List Byte → Except Error (List Byte)
  | [], data => .ok data
  | i :: rest, data =>
    if sub32 i.virtualaddress data_rva + 4 ≤ data.length then
      importLoop st data_rva rest
        (store32 data (sub32 i.virtualaddress data_rva) (stubFor st i.name % W32))
    else .error .undefined

/-- Method `DllModule::import`. -/
def DllModule.import_ (st : Stubs) (m : DllModule) : Except Error DllModule := do
  let d ← importLoop st (minvirtaddr m._pe._sections % W32) m._pe._imports m._data
  .ok { m with _data := d }

/-- Constructor `DllModule::DllModule(dllname)`: `content` is what `fopen`
finds under the name, `base` the address the buffer is allocated at. -/
def DllModule.create (st : Stubs) (base : Nat) (content : Option (List Byte)) :
    Except Error DllModule := do
  let f ← posixfile.fopen content
  let pe ← PEFileInfo.parse f
  let m ← load_sections pe.2 pe.1
  let m1 ← m.relocate base
  DllModule.import_ st m1

/-- Static member `DllModule::SetLastError(e)`, whose body is empty.  Inside
the member functions of `DllModule` the name `SetLastError` is this one. -/
def DllModule.SetLastError (g : Globals) (_e : Nat) : Globals := g

/-- The `void*` that a lookup hands to its caller, `base` being the address of
`_data[0]`: `NULL`, which is 0, for a miss, and `&_data[0] + off` in 32-bit
arithmetic for the entry with offset `off`.  An entry whose pointer wraps to 0
cannot be told from a miss by the caller. -/
def pointerOf (base : Nat) : Option Nat → Nat
  | none => 0
  | some off => (base + off) % W32

/-- Method `DllModule::getprocbyname`: the entry that was found, as its offset
(`none` is the miss, for which the method returns `NULL`), and the globals
after the call. -/
def DllModule.getprocbyname (codes : ErrorCodes) (m : DllModule) (procname : CString)
    (g : Globals) : Option Nat × Globals :=
  match m._exportsbyname.lookup procname with
  | none => (none, DllModule.SetLastError g codes.ERROR_PROC_NOT_FOUND)
  | some p => (some p, g)

/-- Method `DllModule::getprocbyordinal`: the entry that was found, as its
offset (`none` is the miss, for which the method returns `NULL`), and the
globals after the call. -/
def DllModule.getprocbyordinal (codes : ErrorCodes) (m : DllModule) (ord : Nat)
    (g : Globals) : Option Nat × Globals :=
  match m._exportsbyordinal.lookup ord with
  | none => (none, DllModule.SetLastError g codes.ERROR_PROC_NOT_FOUND)
  | some p => (some p, g)

/-- Function `LoadLibrary`: the handle (`none` is `NULL`) and the globals after
the call.  `catch(...)` takes every exception; the outer `none` stands for a
run that left defined behaviour. -/
def LoadLibrary (codes : ErrorCodes) (st : Stubs) (base : Nat) (content : Option (List Byte))
    (g : Globals) : Option (Option DllModule × Globals) :=
  match DllModule.create st base content with
  | .ok dll => some (some dll, g)
  | .error .undefined => none
  | .error .diverged => none
  | .error _ => some (none, SetLastError g codes.ERROR_MOD_NOT_FOUND)

/-! ## Sample images -/

/-- A run of zero bytes. -/
def zeros (n : Nat) : List Byte := List.replicate n 0

/-- The 272 bytes in front of the section content of a PE file with one
section: DOS header (64 bytes, `e_lfanew` = 64), PE header (120 bytes,
preferred base `vbase`, six data directories), the directories `exp`, `imp`
and `fix` as `(rva, size)`, and the header of a section at RVA `rva` with
virtual size `vsize` and `psize` bytes at file offset 272. -/
def peHeaders (vbase rva vsize : Nat) (exp imp fix : Nat × Nat) (psize : Nat) : List Byte :=
  [0x4d, 0x5a] ++ zeros 58 ++ bytesLE 4 64
  ++ [0x50, 0x45, 0, 0] ++ zeros 2 ++ bytesLE 2 1 ++ zeros 12 ++ bytesLE 2 144 ++ zeros 30
    ++ bytesLE 4 vbase ++ zeros 60 ++ bytesLE 4 6
  ++ bytesLE 4 exp.1 ++ bytesLE 4 exp.2 ++ bytesLE 4 imp.1 ++ bytesLE 4 imp.2 ++ zeros 24
    ++ bytesLE 4 fix.1 ++ bytesLE 4 fix.2
  ++ zeros 8 ++ bytesLE 4 vsize ++ bytesLE 4 rva ++ bytesLE 4 psize ++ bytesLE 4 272
    ++ zeros 16

/-- A PE file with one section: the headers of `peHeaders` and the section
content `payload`. -/
def peFile (vbase rva vsize : Nat) (exp imp fix : Nat × Nat) (payload : List Byte) : List Byte :=
  peHeaders vbase rva vsize exp imp fix payload.length ++ payload

/-- Host stub addresses used in the examples. -/
def sampleStubs : Stubs :=
  { LocalAlloc := 0x08000010, LocalFree := 0x08000020, DisableThreadLibraryCalls := 0x08000030,
    SetLastError := 0x08000040, malloc := 0x08000050, free := 0x08000060,
    undefined := 0x08000070, dummy := 0x08000080 }

/-- Scenario 1: one section of `0x90` bytes, no directories. -/
def emptyDirsFile : List Byte :=
  peFile 0x10000000 0x1000 0x10 (0, 0) (0, 0) (0, 0) (List.replicate 4 0x90)

deriving instance DecidableEq for Except

/-- The module that loading `emptyDirsFile` at address `0x20000000` gives. -/
def emptyDirsModule : DllModule :=
  { _pe := { _vbase := 0x10000000,
             _sections := [{ fileoffset := 272, filesize := 4, virtualaddress := 0x10001000,
                             virtualsize := 16 }],
             _imports := [], _exports := [], _relocs := [] },
    _exportsbyname := [], _exportsbyordinal := [],
    _data := List.replicate 4 0x90 ++ zeros 12 }

/-- Section content with an export directory at section offset `0x10`: two
address-table entries (RVA `0x1000` and `0x1004`), ordinal base 1, and the
names `names` as `(RVA of the string, index into the address table)`; the
string `foo` is at RVA `0x1060`, the string `bar` at RVA `0x1064`. -/
def exportPayload (names : List (Nat × Nat)) : List Byte :=
  [0xc3, 0, 0, 0, 0xc3, 0, 0, 0] ++ zeros 8
  ++ zeros 16 ++ bytesLE 4 1 ++ bytesLE 4 2 ++ bytesLE 4 names.length
    ++ bytesLE 4 0x1038 ++ bytesLE 4 0x1040 ++ bytesLE 4 0x1050
  ++ bytesLE 4 0x1000 ++ bytesLE 4 0x1004
  ++ (names.map (fun n => bytesLE 4 n.1)).flatten ++ zeros (16 - 4 * names.length)
  ++ (names.map (fun n => bytesLE 2 n.2)).flatten ++ zeros (16 - 2 * names.length)
  ++ str "foo" ++ [0] ++ str "bar" ++ [0]

/-- Scenario 2 and its variants: a PE file with the export directory of
`exportPayload`. -/
def exportFile (names : List (Nat × Nat)) : List Byte :=
  peFile 0x10000000 0x1000 0x80 (0x1010, 0x28) (0, 0) (0, 0) (exportPayload names)

/-- Scenario 2: the name `foo` for the first address-table entry (ordinal 1,
RVA `0x1000`); the second entry (ordinal 2) has no name. -/
def fooFile : List Byte := exportFile [(0x1060, 0)]

/-- The module that loading `fooFile` gives. -/
def fooModule : DllModule :=
  { _pe := { _vbase := 0x10000000,
             _sections := [{ fileoffset := 272, filesize := 104, virtualaddress := 0x10001000,
                             virtualsize := 0x80 }],
             _imports := [],
             _exports := [{ name := str "foo", ordinal := 1, virtualaddress := 0x10001000 },
                          { name := [], ordinal := 2, virtualaddress := 0x10001004 }],
             _relocs := [] },
    _exportsbyname := [(str "foo", 0)], _exportsbyordinal := [(2, 4)],
    _data := exportPayload [(0x1060, 0)] ++ zeros 24 }

/-- An export directory that gives the name `foo` to both address-table
entries. -/
def dupExportsFile : List Byte := exportFile [(0x1060, 0), (0x1060, 1)]

/-- The module that loading `dupExportsFile` gives. -/
def dupExportsModule : DllModule :=
  { _pe := { _vbase := 0x10000000,
             _sections := [{ fileoffset := 272, filesize := 104, virtualaddress := 0x10001000,
                             virtualsize := 0x80 }],
             _imports := [],
             _exports := [{ name := str "foo", ordinal := 1, virtualaddress := 0x10001000 },
                          { name := str "foo", ordinal := 2, virtualaddress := 0x10001004 }],
             _relocs := [] },
    _exportsbyname := [(str "foo", 4), (str "foo", 0)], _exportsbyordinal := [],
    _data := exportPayload [(0x1060, 0), (0x1060, 1)] ++ zeros 24 }

/-- Number of bytes of the buffer that a relocation of the given kind
writes: 2 for HIGH and LOW, 4 for HIGHLOW, none for ABSOLUTE. -/
def patchWidth (type : Nat) : Nat :=
  match type with
  | 1 => 2
  | 2 => 2
  | 3 => 4
  | _ => 0

/-- Section content with the word `0x10001000` at section offset 0 and, at
section offset 8, one relocation block for page RVA `0x2000` with the given
16-bit entries. -/
def relocPayload (entries : List Nat) : List Byte :=
  bytesLE 4 0x10001000 ++ zeros 4
  ++ bytesLE 4 0x2000 ++ bytesLE 4 (8 + 2 * entries.length)
  ++ (entries.map (bytesLE 2)).flatten

/-- Scenario 3 and its variants: preferred base `0x10000000`, one section at
RVA `0x2000` with the content `relocPayload entries`, and the base-relocation
directory over the block. -/
def relocFile (entries : List Nat) : List Byte :=
  peFile 0x10000000 0x2000 0x20 (0, 0) (0, 0) (0x2008, 8 + 2 * entries.length)
    (relocPayload entries)

/-- The module after Phases 1 and 2 of loading `relocFile entries`, the
relocation list being `relocs`. -/
def relocModule (entries : List Nat) (relocs : List relocinfo) : DllModule :=
  { _pe := { _vbase := 0x10000000,
             _sections := [{ fileoffset := 272, filesize := 16 + 2 * entries.length,
                             virtualaddress := 0x10002000, virtualsize := 0x20 }],
             _imports := [], _exports := [], _relocs := relocs },
    _exportsbyname := [], _exportsbyordinal := [],
    _data := relocPayload entries ++ zeros (16 - 2 * entries.length) }

/-- Phases 1 and 2 of the constructor: parse the file and load the sections. -/
def loadPhases12 (bytes : List Byte) : Except Error DllModule := do
  let pe ← PEFileInfo.parse { bytes := bytes, pos := 0 }
  load_sections pe.2 pe.1

/-- Scenario 1 in full size: one section with virtual size `0x1000` and
`0x200` bytes `0x90` in the file, no directories. -/
def scenario1File : List Byte :=
  peFile 0x10000000 0x1000 0x1000 (0, 0) (0, 0) (0, 0) (List.replicate 0x200 0x90)

/-- The descriptor that `scenario1File` parses into. -/
def scenario1Pe : PEFileInfo :=
  { _vbase := 0x10000000,
    _sections := [{ fileoffset := 272, filesize := 0x200, virtualaddress := 0x10001000,
                    virtualsize := 0x1000 }],
    _imports := [], _exports := [], _relocs := [] }

/-! ## The import directory as the specification describes it -/

/-- Section content with an import directory: one descriptor for `k.dll`
(lookup table at RVA `0x1028`, address table at RVA `0x1050`) and the all-zero
descriptor; `ilt` are the words of the lookup table before its closing zero,
at most three.  At RVA `0x1060` is a hint and the name `malloc`, at RVA
`0x1070` a hint and an empty name. -/
def importPayload (ilt : List Nat) : List Byte :=
  bytesLE 4 0x1028 ++ zeros 8 ++ bytesLE 4 0x1040 ++ bytesLE 4 0x1050
  ++ zeros 20
  ++ (ilt.map (bytesLE 4)).flatten ++ zeros (24 - 4 * ilt.length)
  ++ str "k.dll" ++ zeros 11
  ++ zeros 16
  ++ zeros 2 ++ str "malloc" ++ zeros 8
  ++ zeros 8

/-- Scenarios 4 and 5 and their variants: a PE file with the import directory
of `importPayload`. -/
def importFile (ilt : List Nat) : List Byte :=
  peFile 0x10000000 0x1000 0x80 (0, 0) (0x1000, 0x28) (0, 0) (importPayload ilt)

/-- A PE file whose only section has file size 0 (virtual size `0x10`), as a
section of uninitialised data has. -/
def zeroSizeSectionFile : List Byte :=
  peFile 0x10000000 0x1000 0x10 (0, 0) (0, 0) (0, 0) []

/-- Section content with an export directory at section offset `0x10` (RVA
`0x1010`, size `0x28`): ordinal base `ordbase`, the address table `eat` (at
most two entries, at RVA `0x1038`), and the names `names` as `(RVA of the
string, index into the address table)` (at most four, pointers at RVA `0x1040`
and ordinal table at RVA `0x1050`); the string `foo` is at RVA `0x1060`, the
string `bar` at RVA `0x1064`. -/
def exportDirPayload (ordbase : Nat) (eat : List Nat) (names : List (Nat × Nat)) : List Byte :=
  [0xc3, 0, 0, 0, 0xc3, 0, 0, 0] ++ zeros 8
  ++ zeros 16 ++ bytesLE 4 ordbase ++ bytesLE 4 eat.length ++ bytesLE 4 names.length
    ++ bytesLE 4 0x1038 ++ bytesLE 4 0x1040 ++ bytesLE 4 0x1050
  ++ (eat.map (bytesLE 4)).flatten ++ zeros (8 - 4 * eat.length)
  ++ (names.map (fun n => bytesLE 4 n.1)).flatten ++ zeros (16 - 4 * names.length)
  ++ (names.map (fun n => bytesLE 2 n.2)).flatten ++ zeros (16 - 2 * names.length)
  ++ str "foo" ++ [0] ++ str "bar" ++ [0]

/-- A PE file with the export directory of `exportDirPayload`, preferred base
`0x10000000`, one section at RVA `0x1000`. -/
def exportDirFile (ordbase : Nat) (eat : List Nat) (names : List (Nat × Nat)) : List Byte :=
  peFile 0x10000000 0x1000 0x80 (0x1010, 0x28) (0, 0) (0, 0) (exportDirPayload ordbase eat names)

/-- A PE file with a base-relocation directory of two blocks for page RVA
`0x2000`: an empty block (block size 8) and a block with the one entry
`0x3000`; the section is at RVA `0x2000`, the directory at RVA `0x2008`. -/
def emptyBlockFile : List Byte :=
  peFile 0x10000000 0x2000 0x20 (0, 0) (0, 0) (0x2008, 18)
    (bytesLE 4 0x10001000 ++ zeros 4
      ++ bytesLE 4 0x2000 ++ bytesLE 4 8
      ++ bytesLE 4 0x2000 ++ bytesLE 4 10 ++ bytesLE 2 0x3000)

/-- A PE file with two sections and no directories, preferred base
`0x10000000`: section A at RVA `0x1000` (virtual size `0x10`) and section B at
RVA `0xEFFFF000`, that is at virtual address `0xFFFFF000`, with virtual size
`0x2000`; each has 4 bytes in the file. -/
def wrapSectionsFile : List Byte :=
  [0x4d, 0x5a] ++ zeros 58 ++ bytesLE 4 64
  ++ [0x50, 0x45, 0, 0] ++ zeros 2 ++ bytesLE 2 2 ++ zeros 12 ++ bytesLE 2 144 ++ zeros 30
    ++ bytesLE 4 0x10000000 ++ zeros 60 ++ bytesLE 4 6
  ++ zeros 48
  ++ zeros 8 ++ bytesLE 4 0x10 ++ bytesLE 4 0x1000 ++ bytesLE 4 4 ++ bytesLE 4 312 ++ zeros 16
  ++ zeros 8 ++ bytesLE 4 0x2000 ++ bytesLE 4 0xEFFFF000 ++ bytesLE 4 4 ++ bytesLE 4 316
    ++ zeros 16
  ++ [0x90, 0x90, 0x90, 0x90] ++ [0xcc, 0xcc, 0xcc, 0xcc]

/-- The sections that `wrapSectionsFile` parses into. -/
def wrapSections : List sectioninfo :=
  [{ fileoffset := 312, filesize := 4, virtualaddress := 0x10001000, virtualsize := 0x10 },
   { fileoffset := 316, filesize := 4, virtualaddress := 0xFFFFF000, virtualsize := 0x2000 }]

/-- Section content with an import directory of one descriptor for `k.dll`
whose lookup table (RVA `0x1028`) has one by-name word for the string `nm`, of
at most 13 bytes, at RVA `0x1062`; the address table is at RVA `0x1050`. -/
def importNamePayload (nm : CString) : List Byte :=
  bytesLE 4 0x1028 ++ zeros 8 ++ bytesLE 4 0x1040 ++ bytesLE 4 0x1050
  ++ zeros 20
  ++ bytesLE 4 0x1060 ++ zeros 20
  ++ str "k.dll" ++ zeros 11
  ++ zeros 16
  ++ zeros 2 ++ nm ++ zeros (14 - nm.length)

/-- Scenario 5 and its variants: a PE file importing the one name `nm` from
`k.dll`. -/
def importNameFile (nm : CString) : List Byte :=
  peFile 0x10000000 0x1000 0x80 (0, 0) (0x1000, 0x28) (0, 0) (importNamePayload nm)

/-! ## The patch table as the specification describes it -/

/-- The unaligned 16-bit little-endian word at offset `t` of the buffer. -/
def word16At (data : List Byte) (t : Nat) : Nat :=
  (data.getD t 0).val + 256 * (data.getD (t + 1) 0).val

/-- The buffer with the 16-bit little-endian word at offset `t` replaced by
`v`, all other bytes as they were. -/
def replaceWord16 (data : List Byte) (t v : Nat) : List Byte :=
  data.take t ++ [Fin.ofNat (v % 256), Fin.ofNat (v / 256 % 256)] ++ data.drop (t + 2)

/-- The reference patch of the kinds 0 to 2 at offset `t`: ABSOLUTE is a
no-op, HIGH adds the high 16 bits of delta to the 16-bit word at the target,
LOW adds the low 16 bits of delta to it, with wrap-around. -/
def referencePatch (kind delta : Nat) (data : List Byte) (t : Nat) : List Byte :=
  match kind with
  | 1 => replaceWord16 data t ((word16At data t + delta / 2 ^ 16) % 2 ^ 16)
  | 2 => replaceWord16 data t ((word16At data t + delta % 2 ^ 16) % 2 ^ 16)
  | _ => data

/-- The module after Phases 1 to 3 of loading `importFile [0x1060,
0x80000005]`: it imports `malloc` by name and ordinal 5 from `k.dll`. -/
def importModule : DllModule :=
  { _pe := { _vbase := 0x10000000,
             _sections := [{ fileoffset := 272, filesize := 120, virtualaddress := 0x10001000,
                             virtualsize := 0x80 }],
             _imports := [{ dllname := str "k.dll", name := str "malloc", ordinal := none,
                            virtualaddress := 0x10001050 },
                          { dllname := str "k.dll", name := [], ordinal := some 5,
                            virtualaddress := 0x10001054 }],
             _exports := [], _relocs := [] },
    _exportsbyname := [], _exportsbyordinal := [],
    _data := importPayload [0x1060, 0x80000005] ++ zeros 8 }

/-- The names that `DllModule::import` compares with. -/
def recognisedNames : List CString :=
  [str "LocalAlloc", str "LocalFree", str "DisableThreadLibraryCalls", str "SetLastError",
   str "malloc", str "free", str "_adjust_fdiv"]

/-! ## Reading up to a zero element as the specification describes it -/

/-- The whole elements of `w` bytes of a byte sequence, a last part of less
than `w` bytes left aside. -/
def wholeElements (w : Nat) (bs : List Byte) : List Nat := elems w (bs.length / w) bs

/-- The elements in front of the first zero element, or all of them when no
element is zero. -/
def uptoZero (es : List Nat) : List Nat := es.takeWhile (fun e => decide (e ≠ 0))

/-- Field `e_lfanew` of the DOS header: the file offset of the PE header. -/
def lfanewOf (bytes : List Byte) : Nat := u32At bytes 60

/-- Field `vbase` of the PE header in the file: the preferred base. -/
def preferredBaseOf (bytes : List Byte) : Nat := u32At bytes (lfanewOf bytes + 52)

/-- Field `objcnt` of the PE header in the file: the number of sections. -/
def sectionCountOf (bytes : List Byte) : Nat := u16At bytes (lfanewOf bytes + 6)

/-- File offset of the section table, as the constructor computes it:
`lfanew + opthdrsize + 24` in 32-bit arithmetic. -/
def sectionTableOf (bytes : List Byte) : Nat :=
  (lfanewOf bytes + u16At bytes (lfanewOf bytes + 20) + 24) % W32

/-- Field `rva` of entry `i` of the section table in the file. -/
def sectionRvaOf (bytes : List Byte) (i : Nat) : Nat :=
  u32At bytes (sectionTableOf bytes + (40 * i + 12))

/-- Field `vsize` of entry `i` of the section table in the file. -/
def sectionVsizeOf (bytes : List Byte) (i : Nat) : Nat :=
  u32At bytes (sectionTableOf bytes + (40 * i + 8))

/-! ## Termination -/

/-- The file `emptyDirsFile` with the field `hdrextra` of the PE header (the
number of data directories, at file offset 180) set to `d`; the 48 bytes
behind the PE header and the section table stay where they are. -/
def fewDirsFile (d : Nat) : List Byte :=
  emptyDirsFile.take 180 ++ bytesLE 4 d ++ emptyDirsFile.drop 184

/-! # Theorems -/

set_option maxRecDepth 100000

/-! ## The export maps -/

theorem indexExports_byname_skip (minva : Nat) (n : CString) :
    ∀ (es : List exportsymbol) (maps : List (CString × Nat) × List (Nat × Nat)),
      (∀ x ∈ es, x.name ≠ n) →
      (indexExports minva es maps).1.lookup n = maps.1.lookup n := by
  intro es
  induction es with
  | nil => intro maps _; rfl
  | cons e rest ih =>
    intro maps h
    have he : e.name ≠ n := h e (List.mem_cons_self _ _)
    have hrest : ∀ x ∈ rest, x.name ≠ n := fun x hx => h x (List.mem_cons_of_mem _ hx)
    unfold indexExports
    split
    · rw [ih _ hrest]
    · rw [ih _ hrest]
      have hne : (n == e.name) = false := by
        simp only [beq_eq_false_iff_ne, ne_eq]
        exact fun hh => he hh.symm
      simp [List.lookup_cons, hne]

theorem indexExports_byname_last (minva : Nat) (e : exportsymbol) (post : List exportsymbol)
    (hname : e.name ≠ []) (hlast : ∀ x ∈ post, x.name ≠ e.name) :
    ∀ (pre : List exportsymbol) (maps : List (CString × Nat) × List (Nat × Nat)),
      (indexExports minva (pre ++ e :: post) maps).1.lookup e.name
        = some (sub32 e.virtualaddress minva) := by
  intro pre
  induction pre with
  | nil =>
    intro maps
    have hemp : e.name.isEmpty = false := by
      cases hn : e.name with
      | nil => exact absurd hn hname
      | cons a l => rfl
    simp only [List.nil_append]
    unfold indexExports
    rw [hemp]
    simp only [Bool.false_eq_true, if_false]
    rw [indexExports_byname_skip minva e.name post _ hlast]
    simp [List.lookup_cons]
  | cons p pre ih =>
    intro maps
    simp only [List.cons_append]
    unfold indexExports
    split
    · exact ih _
    · exact ih _

theorem indexExports_byordinal_skip (minva : Nat) (o : Nat) :
    ∀ (es : List exportsymbol) (maps : List (CString × Nat) × List (Nat × Nat)),
      (∀ x ∈ es, x.name = [] → x.ordinal ≠ o) →
      (indexExports minva es maps).2.lookup o = maps.2.lookup o := by
  intro es
  induction es with
  | nil => intro maps _; rfl
  | cons e rest ih =>
    intro maps h
    have hrest : ∀ x ∈ rest, x.name = [] → x.ordinal ≠ o :=
      fun x hx => h x (List.mem_cons_of_mem _ hx)
    unfold indexExports
    split
    · rename_i hemp
      rw [ih _ hrest]
      have he : e.ordinal ≠ o := h e (List.mem_cons_self _ _) (List.isEmpty_iff.mp hemp)
      have hne : (o == e.ordinal) = false := by
        simp only [beq_eq_false_iff_ne, ne_eq]
        exact fun hh => he hh.symm
      simp [List.lookup_cons, hne]
    · rw [ih _ hrest]

/-! ## What the constructor leaves in the module -/

theorem writeBytes_length : ∀ (bs data : List Byte) (off : Nat),
    (writeBytes data off bs).length = data.length := by
  intro bs
  induction bs with
  | nil => intro data off; rfl
  | cons b bs ih =>
    intro data off
    unfold writeBytes
    rw [ih]
    exact List.length_set _ _ _

theorem vectorAlloc_ok (n sz : Nat) (h : n * sz < 2 ^ 31) : vectorAlloc n sz = .ok () := by
  unfold vectorAlloc
  rw [if_pos h]

theorem copySections_length (minva : Nat) : ∀ (secs : List sectioninfo) (f : posixfile)
    (data : List Byte) (r : List Byte × posixfile),
    copySections minva secs f data = .ok r → r.1.length = data.length := by
  intro secs
  induction secs with
  | nil => intro f data r h; cases h; rfl
  | cons s rest ih =>
    intro f data r h
    simp only [copySections, bind, Except.bind] at h
    split at h
    · cases h
    · split at h
      · split at h
        · cases h
        · rw [ih _ _ _ h, writeBytes_length]
      · cases h

theorem load_sections_fields (f : posixfile) (pe : PEFileInfo) (m : DllModule)
    (h : load_sections f pe = .ok m) :
    m._pe = pe
      ∧ m._exportsbyname = (indexExports (minvirtaddr pe._sections) pe._exports ([], [])).1
      ∧ m._exportsbyordinal = (indexExports (minvirtaddr pe._sections) pe._exports ([], [])).2 := by
  unfold load_sections at h
  simp only [bind, Except.bind] at h
  split at h
  · cases h
  · split at h
    · cases h
    · cases h
      exact ⟨rfl, rfl, rfl⟩

theorem load_sections_length (f : posixfile) (pe : PEFileInfo) (m : DllModule)
    (h : load_sections f pe = .ok m) :
    m._data.length = sub32 (maxvirtaddr pe._sections) (minvirtaddr pe._sections)
      ∧ m._data.length < 2 ^ 31 := by
  unfold load_sections at h
  simp only [bind, Except.bind] at h
  split at h
  · cases h
  · rename_i ha
    split at h
    · cases h
    · rename_i r hr
      cases h
      have hl := copySections_length _ _ _ _ _ hr
      rw [List.length_replicate] at hl
      refine ⟨hl, ?_⟩
      show r.1.length < 2 ^ 31
      rw [hl]
      unfold vectorAlloc at ha
      split at ha
      · omega
      · cases ha

theorem relocate_fields (m m1 : DllModule) (base : Nat) (h : m.relocate base = .ok m1) :
    m1._pe = m._pe ∧ m1._exportsbyname = m._exportsbyname
      ∧ m1._exportsbyordinal = m._exportsbyordinal := by
  unfold DllModule.relocate at h
  simp only [bind, Except.bind] at h
  split at h
  · cases h
  · cases h
    exact ⟨rfl, rfl, rfl⟩

theorem import_fields (st : Stubs) (m m1 : DllModule) (h : DllModule.import_ st m = .ok m1) :
    m1._pe = m._pe ∧ m1._exportsbyname = m._exportsbyname
      ∧ m1._exportsbyordinal = m._exportsbyordinal := by
  unfold DllModule.import_ at h
  simp only [bind, Except.bind] at h
  split at h
  · cases h
  · cases h
    exact ⟨rfl, rfl, rfl⟩

/-- The stages of a constructor run that gives a module. -/
theorem create_stages (st : Stubs) (base : Nat) (content : Option (List Byte)) (m : DllModule)
    (h : DllModule.create st base content = .ok m) :
    ∃ bytes pe f m0 m1, content = some bytes
      ∧ PEFileInfo.parse { bytes := bytes, pos := 0 } = .ok (pe, f)
      ∧ load_sections f pe = .ok m0 ∧ m0.relocate base = .ok m1
      ∧ DllModule.import_ st m1 = .ok m := by
  unfold DllModule.create at h
  cases content with
  | none => simp [posixfile.fopen, bind, Except.bind] at h
  | some bytes =>
    simp only [posixfile.fopen, bind, Except.bind] at h
    cases hp : PEFileInfo.parse { bytes := bytes, pos := 0 } with
    | error e => rw [hp] at h; cases h
    | ok r =>
      obtain ⟨pe, f⟩ := r
      rw [hp] at h
      simp only at h
      cases hl : load_sections f pe with
      | error e => rw [hl] at h; cases h
      | ok m0 =>
        rw [hl] at h
        simp only at h
        cases hr : m0.relocate base with
        | error e => rw [hr] at h; cases h
        | ok m1 =>
          rw [hr] at h
          simp only at h
          exact ⟨bytes, pe, f, m0, m1, rfl, hp, hl, hr, h⟩

theorem create_maps (st : Stubs) (base : Nat) (content : Option (List Byte)) (m : DllModule)
    (h : DllModule.create st base content = .ok m) :
    m._exportsbyname
        = (indexExports (minvirtaddr m._pe._sections) m._pe._exports ([], [])).1
      ∧ m._exportsbyordinal
        = (indexExports (minvirtaddr m._pe._sections) m._pe._exports ([], [])).2 := by
  obtain ⟨bytes, pe, f, m0, m1, _, _, hl, hr, hm⟩ := create_stages st base content m h
  obtain ⟨h1, h2, h3⟩ := load_sections_fields f pe m0 hl
  obtain ⟨r1, r2, r3⟩ := relocate_fields m0 m1 base hr
  obtain ⟨i1, i2, i3⟩ := import_fields st m1 m hm
  rw [i1, i2, i3, r1, r2, r3, h1, h2, h3]
  exact ⟨rfl, rfl⟩

theorem getprocbyname_hit (codes : ErrorCodes) (m : DllModule) (n : CString) (g : Globals)
    (p : Nat) (h : m._exportsbyname.lookup n = some p) :
    m.getprocbyname codes n g = (some p, g) := by
  unfold DllModule.getprocbyname
  rw [h]

theorem getprocbyordinal_miss (codes : ErrorCodes) (m : DllModule) (o : Nat) (g : Globals)
    (h : m._exportsbyordinal.lookup o = none) :
    m.getprocbyordinal codes o g = (none, g) := by
  unfold DllModule.getprocbyordinal
  rw [h]
  rfl

/-! ## C1: a lookup miss -/

/-- C1, at the failing input: on the module loaded from a file without
exports, with the last-error slot at its initial value 0, the lookups of an
absent name and of an absent ordinal return `NULL` and leave the slot at 0,
which is not `ERROR_PROC_NOT_FOUND`: the call inside `DllModule` reaches the
static member `SetLastError`, whose body is empty. -/
theorem lookup_miss_leaves_lasterror :
    DllModule.create sampleStubs 0x20000000 (some emptyDirsFile) = .ok emptyDirsModule
      ∧ emptyDirsModule.getprocbyname win32Codes (str "anything") { g_lasterror := 0 }
          = (none, { g_lasterror := 0 })
      ∧ emptyDirsModule.getprocbyordinal win32Codes 1 { g_lasterror := 0 }
          = (none, { g_lasterror := 0 })
      ∧ GetLastError
          (emptyDirsModule.getprocbyname win32Codes (str "anything") { g_lasterror := 0 }).2
          ≠ win32Codes.ERROR_PROC_NOT_FOUND
      ∧ GetLastError (emptyDirsModule.getprocbyordinal win32Codes 1 { g_lasterror := 0 }).2
          ≠ win32Codes.ERROR_PROC_NOT_FOUND := by
  refine ⟨?_, ?_, ?_, ?_, ?_⟩
  · decide!
  · decide!
  · decide!
  · decide!
  · decide!

/-! ## C2: lookup of a named export -/

/-- C2 as stated fails: in the module loaded from `dupExportsFile` the export
record `foo` with ordinal 1 has virtual address `0x10001000`, offset 0 from the
lowest section, but `getprocbyname("foo")` returns the pointer at offset 4, the
one of the later record with the same name. -/
theorem find_by_name_duplicate_name :
    DllModule.create sampleStubs 0x20000000 (some dupExportsFile) = .ok dupExportsModule
      ∧ ({ name := str "foo", ordinal := 1, virtualaddress := 0x10001000 } : exportsymbol)
          ∈ dupExportsModule._pe._exports
      ∧ str "foo" ≠ []
      ∧ sub32 0x10001000 (minvirtaddr dupExportsModule._pe._sections) = 0
      ∧ dupExportsModule.getprocbyname win32Codes (str "foo") { g_lasterror := 0 }
          = (some 4, { g_lasterror := 0 }) := by
  refine ⟨?_, ?_, ?_, ?_, ?_⟩
  · decide!
  · decide!
  · decide!
  · decide!
  · decide!

/-- C2, amended: for every export record of a loaded module that has a
non-empty name and is the last record of the export vector with that name,
`getprocbyname(name)` finds the entry at offset `export.vaddr - min_vaddr` (in
32-bit arithmetic) and does not touch the last-error slot; the pointer it
returns is `buffer_base + (export.vaddr - min_vaddr)` mod 2^32.  When the
address of the export lies inside the buffer and the buffer lies in the 32-bit
address space above address 0, that pointer is `buffer_base + (export.vaddr -
min_vaddr)` without wrap-around and is not `NULL`. -/
theorem find_by_name_last_record (codes : ErrorCodes) (st : Stubs) (base : Nat)
    (content : Option (List Byte)) (m : DllModule) (g : Globals)
    (pre post : List exportsymbol) (e : exportsymbol)
    (hload : DllModule.create st base content = .ok m)
    (hexp : m._pe._exports = pre ++ e :: post)
    (hname : e.name ≠ [])
    (hlast : ∀ x ∈ post, x.name ≠ e.name) :
    m.getprocbyname codes e.name g
        = (some (sub32 e.virtualaddress (minvirtaddr m._pe._sections)), g)
      ∧ pointerOf base (m.getprocbyname codes e.name g).1
          = (base + sub32 e.virtualaddress (minvirtaddr m._pe._sections)) % W32
      ∧ (sub32 e.virtualaddress (minvirtaddr m._pe._sections) < m._data.length →
          0 < base → base + m._data.length ≤ W32 →
          pointerOf base (m.getprocbyname codes e.name g).1
              = base + sub32 e.virtualaddress (minvirtaddr m._pe._sections)
            ∧ pointerOf base (m.getprocbyname codes e.name g).1 ≠ 0) := by
  have hget : m.getprocbyname codes e.name g
      = (some (sub32 e.virtualaddress (minvirtaddr m._pe._sections)), g) := by
    apply getprocbyname_hit
    rw [(create_maps st base content m hload).1, hexp]
    exact indexExports_byname_last _ e post hname hlast pre _
  rw [hget]
  refine ⟨rfl, rfl, fun hin hbase hfit => ?_⟩
  have hp : pointerOf base (some (sub32 e.virtualaddress (minvirtaddr m._pe._sections)))
      = base + sub32 e.virtualaddress (minvirtaddr m._pe._sections) := by
    show (base + sub32 e.virtualaddress (minvirtaddr m._pe._sections)) % W32 = _
    exact Nat.mod_eq_of_lt (by omega)
  show pointerOf base (some (sub32 e.virtualaddress (minvirtaddr m._pe._sections))) = _
    ∧ pointerOf base (some (sub32 e.virtualaddress (minvirtaddr m._pe._sections))) ≠ 0
  rw [hp]
  exact ⟨rfl, by omega⟩

/-- Witness of `find_by_name_last_record`: `foo` in the module loaded from
`fooFile` at address `0x20000000`; the pointer is `0x20000000`. -/
theorem find_by_name_last_record_witness :
    DllModule.create sampleStubs 0x20000000 (some fooFile) = .ok fooModule
      ∧ fooModule.getprocbyname win32Codes (str "foo") { g_lasterror := 0 }
          = (some (sub32 0x10001000 (minvirtaddr fooModule._pe._sections)),
             { g_lasterror := 0 })
      ∧ pointerOf 0x20000000
            (fooModule.getprocbyname win32Codes (str "foo") { g_lasterror := 0 }).1
          = 0x20000000 + sub32 0x10001000 (minvirtaddr fooModule._pe._sections)
      ∧ pointerOf 0x20000000
            (fooModule.getprocbyname win32Codes (str "foo") { g_lasterror := 0 }).1 ≠ 0 :=
  ⟨by decide!,
   (find_by_name_last_record win32Codes sampleStubs 0x20000000 (some fooFile) fooModule
      { g_lasterror := 0 } []
      [{ name := [], ordinal := 2, virtualaddress := 0x10001004 }]
      { name := str "foo", ordinal := 1, virtualaddress := 0x10001000 }
      (by decide!) (by decide!) (by decide!) (by decide!)).1,
   ((find_by_name_last_record win32Codes sampleStubs 0x20000000 (some fooFile) fooModule
      { g_lasterror := 0 } []
      [{ name := [], ordinal := 2, virtualaddress := 0x10001004 }]
      { name := str "foo", ordinal := 1, virtualaddress := 0x10001000 }
      (by decide!) (by decide!) (by decide!) (by decide!)).2.2
      (by decide!) (by decide) (by decide!)).1,
   ((find_by_name_last_record win32Codes sampleStubs 0x20000000 (some fooFile) fooModule
      { g_lasterror := 0 } []
      [{ name := [], ordinal := 2, virtualaddress := 0x10001004 }]
      { name := str "foo", ordinal := 1, virtualaddress := 0x10001000 }
      (by decide!) (by decide!) (by decide!) (by decide!)).2.2
      (by decide!) (by decide) (by decide!)).2⟩

/-! ## C3: a named export and its ordinal -/

/-- C3 as stated fails on scenario 2: in the module loaded from `fooFile` the
export `foo` has ordinal 1; `getprocbyname("foo")` returns the pointer at
offset 0 and `getprocbyordinal(1)` returns `NULL`. -/
theorem find_by_ordinal_named_export :
    DllModule.create sampleStubs 0x20000000 (some fooFile) = .ok fooModule
      ∧ ({ name := str "foo", ordinal := 1, virtualaddress := 0x10001000 } : exportsymbol)
          ∈ fooModule._pe._exports
      ∧ fooModule.getprocbyname win32Codes (str "foo") { g_lasterror := 0 }
          = (some 0, { g_lasterror := 0 })
      ∧ fooModule.getprocbyordinal win32Codes 1 { g_lasterror := 0 }
          = (none, { g_lasterror := 0 }) := by
  refine ⟨?_, ?_, ?_, ?_⟩
  · decide!
  · decide!
  · decide!
  · decide!

/-- C3, amended: a named export is entered in the name map only.  For every
export record of a loaded module with a non-empty name n (the last record
with that name) and ordinal o, `getprocbyname(n)` returns the pointer at offset
`export.vaddr - min_vaddr`, and `getprocbyordinal(o)` returns `NULL` when no
record with an empty name has ordinal o. -/
theorem find_by_ordinal_skips_named (codes : ErrorCodes) (st : Stubs) (base : Nat)
    (content : Option (List Byte)) (m : DllModule) (g : Globals)
    (pre post : List exportsymbol) (e : exportsymbol)
    (hload : DllModule.create st base content = .ok m)
    (hexp : m._pe._exports = pre ++ e :: post)
    (hname : e.name ≠ [])
    (hlast : ∀ x ∈ post, x.name ≠ e.name)
    (hord : ∀ x ∈ m._pe._exports, x.name = [] → x.ordinal ≠ e.ordinal) :
    m.getprocbyname codes e.name g
        = (some (sub32 e.virtualaddress (minvirtaddr m._pe._sections)), g)
      ∧ m.getprocbyordinal codes e.ordinal g = (none, g) := by
  constructor
  · apply getprocbyname_hit
    rw [(create_maps st base content m hload).1, hexp]
    exact indexExports_byname_last _ e post hname hlast pre _
  · apply getprocbyordinal_miss
    rw [(create_maps st base content m hload).2]
    rw [indexExports_byordinal_skip _ e.ordinal _ _ hord]
    rfl

/-- Witness of `find_by_ordinal_skips_named`: `foo`, ordinal 1, in the module
loaded from `fooFile`. -/
theorem find_by_ordinal_skips_named_witness :
    DllModule.create sampleStubs 0x20000000 (some fooFile) = .ok fooModule
      ∧ (fooModule.getprocbyname win32Codes (str "foo") { g_lasterror := 0 }
          = (some (sub32 0x10001000 (minvirtaddr fooModule._pe._sections)),
             { g_lasterror := 0 })
        ∧ fooModule.getprocbyordinal win32Codes 1 { g_lasterror := 0 }
          = (none, { g_lasterror := 0 })) :=
  ⟨by decide!,
   find_by_ordinal_skips_named win32Codes sampleStubs 0x20000000 (some fooFile) fooModule
    { g_lasterror := 0 } []
    [{ name := [], ordinal := 2, virtualaddress := 0x10001004 }]
    { name := str "foo", ordinal := 1, virtualaddress := 0x10001000 }
    (by decide!) (by decide!) (by decide!) (by decide!) (by decide!)⟩

/-! ## Bytes and words of the buffer -/

theorem getD_set_byte (data : List Byte) (i k : Nat) (b : Byte) :
    (data.set i b).getD k 0 = if k = i ∧ i < data.length then b else data.getD k 0 := by
  simp only [List.getD_eq_getElem?_getD, List.getElem?_set]
  by_cases hik : i = k
  · subst hik
    by_cases hlt : i < data.length
    · simp [hlt]
    · simp [hlt, List.getElem?_eq_none (Nat.le_of_not_lt hlt)]
  · have hki : ¬ k = i := fun h => hik h.symm
    simp [hik, hki]

theorem getD_writeBytes : ∀ (bs data : List Byte) (off k : Nat),
    (writeBytes data off bs).getD k 0
      = if off ≤ k ∧ k < off + bs.length ∧ k < data.length then bs.getD (k - off) 0
        else data.getD k 0 := by
  intro bs
  induction bs with
  | nil =>
    intro data off k
    have : ¬ (off ≤ k ∧ k < off + ([] : List Byte).length ∧ k < data.length) := by
      simp only [List.length_nil]; omega
    rw [if_neg this]
    rfl
  | cons b bs ih =>
    intro data off k
    unfold writeBytes
    rw [ih, getD_set_byte, List.length_set]
    simp only [List.length_cons]
    by_cases h1 : off + 1 ≤ k ∧ k < off + 1 + bs.length ∧ k < data.length
    · have h2 : off ≤ k ∧ k < off + (bs.length + 1) ∧ k < data.length := by omega
      rw [if_pos h1, if_pos h2]
      have : k - off = (k - (off + 1)) + 1 := by omega
      rw [this]
      simp [List.getD_cons_succ]
    · rw [if_neg h1]
      by_cases h3 : k = off ∧ off < data.length
      · have h2 : off ≤ k ∧ k < off + (bs.length + 1) ∧ k < data.length := by omega
        rw [if_pos h3, if_pos h2]
        have : k - off = 0 := by omega
        rw [this]
        simp
      · have h2 : ¬ (off ≤ k ∧ k < off + (bs.length + 1) ∧ k < data.length) := by omega
        rw [if_neg h3, if_neg h2]

theorem readBytes_length (data : List Byte) : ∀ (n off : Nat),
    (readBytes data off n).length = n := by
  intro n
  induction n with
  | zero => intro off; rfl
  | succ n ih => intro off; simp [readBytes, ih]

theorem getD_readBytes (data : List Byte) : ∀ (n off j : Nat), j < n →
    (readBytes data off n).getD j 0 = data.getD (off + j) 0 := by
  intro n
  induction n with
  | zero => intro off j h; omega
  | succ n ih =>
    intro off j h
    unfold readBytes
    cases j with
    | zero => simp
    | succ j =>
      rw [List.getD_cons_succ, ih (off + 1) j (by omega)]
      congr 1
      omega

theorem readBytes_congr (d1 d2 : List Byte) : ∀ (n off : Nat),
    (∀ k, off ≤ k → k < off + n → d1.getD k 0 = d2.getD k 0) →
    readBytes d1 off n = readBytes d2 off n := by
  intro n
  induction n with
  | zero => intro off _; rfl
  | succ n ih =>
    intro off h
    unfold readBytes
    rw [h off (Nat.le_refl _) (by omega), ih (off + 1) (fun k h1 h2 => h k (by omega) (by omega))]

theorem readBytes_writeBytes_same : ∀ (bs data : List Byte) (off : Nat),
    off + bs.length ≤ data.length →
    readBytes (writeBytes data off bs) off bs.length = bs := by
  intro bs data off hin
  apply List.ext_getElem
  · rw [readBytes_length]
  · intro j h1 h2
    rw [readBytes_length] at h1
    have := getD_readBytes (writeBytes data off bs) bs.length off j h1
    rw [getD_writeBytes, if_pos (by omega)] at this
    rw [List.getD_eq_getElem _ _ (by rw [readBytes_length]; exact h1)] at this
    rw [this]
    have e : off + j - off = j := by omega
    rw [e, List.getD_eq_getElem _ _ h2]

theorem writeBytes_readBytes (data : List Byte) : ∀ (n off : Nat),
    writeBytes data off (readBytes data off n) = data := by
  intro n off
  apply List.ext_getElem
  · rw [writeBytes_length]
  · intro k h1 h2
    have hg := getD_writeBytes (readBytes data off n) data off k
    rw [List.getD_eq_getElem _ _ h1] at hg
    rw [hg]
    split
    · rename_i hc
      rw [readBytes_length] at hc
      rw [getD_readBytes data n off (k - off) (by omega)]
      have : off + (k - off) = k := by omega
      rw [this, List.getD_eq_getElem _ _ h2]
    · rw [List.getD_eq_getElem _ _ h2]

theorem le_lt : ∀ (bs : List Byte), le bs < 256 ^ bs.length := by
  intro bs
  induction bs with
  | nil => simp [le]
  | cons b bs ih =>
    have hb := b.isLt
    simp only [le, List.length_cons, pow_succ]
    omega

theorem le_bytesLE : ∀ (n v : Nat), le (bytesLE n v) = v % 256 ^ n := by
  intro n
  induction n with
  | zero => intro v; simp [bytesLE, le, Nat.mod_one]
  | succ n ih =>
    intro v
    simp only [bytesLE, le, ih, Fin.ofNat, pow_succ]
    have h1 : v % (256 ^ n * 256) = v % 256 + 256 * (v / 256 % 256 ^ n) := by
      rw [Nat.mul_comm, Nat.mod_mul]
    rw [h1]

theorem bytesLE_le : ∀ (bs : List Byte), bytesLE bs.length (le bs) = bs := by
  intro bs
  induction bs with
  | nil => rfl
  | cons b bs ih =>
    have hb := b.isLt
    simp only [List.length_cons, bytesLE, le]
    have h1 : (b.val + 256 * le bs) / 256 = le bs := by omega
    rw [h1, ih]
    congr 1
    apply Fin.ext
    simp only [Fin.ofNat]
    omega

theorem sub32_mod_right (a b : Nat) : sub32 a (b % W32) = sub32 a b := by
  unfold sub32
  rw [Nat.mod_mod]

theorem load32_store32 (data : List Byte) (off v : Nat) (hin : off + 4 ≤ data.length) :
    load32 (store32 data off v) off = v % W32 := by
  unfold load32 store32
  have h := readBytes_writeBytes_same (bytesLE 4 v) data off (by simpa [bytesLE] using hin)
  have hl : (bytesLE 4 v).length = 4 := by simp [bytesLE]
  rw [hl] at h
  rw [h, le_bytesLE]
  rfl

theorem load16_store16 (data : List Byte) (off v : Nat) (hin : off + 2 ≤ data.length) :
    load16 (store16 data off v) off = v % W16 := by
  unfold load16 store16
  have h := readBytes_writeBytes_same (bytesLE 2 v) data off (by simpa [bytesLE] using hin)
  have hl : (bytesLE 2 v).length = 2 := by simp [bytesLE]
  rw [hl] at h
  rw [h, le_bytesLE]
  rfl

theorem load16_lt (data : List Byte) (off : Nat) : load16 data off < W16 := by
  have h := le_lt (readBytes data off 2)
  rw [readBytes_length] at h
  exact h

theorem load32_lt (data : List Byte) (off : Nat) : load32 data off < W32 := by
  have h := le_lt (readBytes data off 4)
  rw [readBytes_length] at h
  exact h

theorem store16_load16 (data : List Byte) (off : Nat) :
    store16 data off (load16 data off) = data := by
  unfold store16 load16
  have h := bytesLE_le (readBytes data off 2)
  rw [readBytes_length] at h
  rw [h, writeBytes_readBytes]

theorem store32_load32 (data : List Byte) (off : Nat) :
    store32 data off (load32 data off) = data := by
  unfold store32 load32
  have h := bytesLE_le (readBytes data off 4)
  rw [readBytes_length] at h
  rw [h, writeBytes_readBytes]

theorem load32_congr (d1 d2 : List Byte) (off : Nat)
    (h : ∀ k, off ≤ k → k < off + 4 → d1.getD k 0 = d2.getD k 0) :
    load32 d1 off = load32 d2 off := by
  unfold load32
  rw [readBytes_congr d1 d2 4 off h]

theorem bytesLE_length : ∀ (n v : Nat), (bytesLE n v).length = n := by
  intro n
  induction n with
  | zero => intro v; rfl
  | succ n ih => intro v; simp [bytesLE, ih]

theorem applyReloc_frame (delta : Nat) (data d : List Byte) (off type : Nat)
    (h : applyReloc delta data off type = .ok d) :
    d.length = data.length
      ∧ ∀ k, ¬ (off ≤ k ∧ k < off + patchWidth type) → d.getD k 0 = data.getD k 0 := by
  unfold applyReloc at h
  split at h
  · cases h; exact ⟨rfl, fun _ _ => rfl⟩
  · split at h
    · cases h
      refine ⟨by simp [store16, writeBytes_length], fun k hk => ?_⟩
      simp only [store16, getD_writeBytes, bytesLE_length]
      rw [if_neg]
      simp only [patchWidth] at hk
      omega
    · cases h
  · split at h
    · cases h
      refine ⟨by simp [store16, writeBytes_length], fun k hk => ?_⟩
      simp only [store16, getD_writeBytes, bytesLE_length]
      rw [if_neg]
      simp only [patchWidth] at hk
      omega
    · cases h
  · split at h
    · cases h
      refine ⟨by simp [store32, writeBytes_length], fun k hk => ?_⟩
      simp only [store32, getD_writeBytes, bytesLE_length]
      rw [if_neg]
      simp only [patchWidth] at hk
      omega
    · cases h
  · cases h
  · cases h

theorem applyReloc_supported (delta : Nat) (data : List Byte) (off type : Nat)
    (h : type ≤ 3) (hin : off + patchWidth type ≤ data.length) :
    ∃ d, applyReloc delta data off type = .ok d := by
  obtain rfl | rfl | rfl | rfl : type = 0 ∨ type = 1 ∨ type = 2 ∨ type = 3 := by omega
  · exact ⟨_, rfl⟩
  · exact ⟨_, by simp only [applyReloc]; rw [if_pos (show off + 2 ≤ data.length from hin)]⟩
  · exact ⟨_, by simp only [applyReloc]; rw [if_pos (show off + 2 ≤ data.length from hin)]⟩
  · exact ⟨_, by simp only [applyReloc]; rw [if_pos (show off + 4 ≤ data.length from hin)]⟩

theorem applyReloc_outside (delta : Nat) (data : List Byte) (off type : Nat)
    (h1 : 1 ≤ type) (h3 : type ≤ 3) (hout : data.length < off + patchWidth type) :
    applyReloc delta data off type = .error .undefined := by
  obtain rfl | rfl | rfl : type = 1 ∨ type = 2 ∨ type = 3 := by omega
  · simp only [applyReloc]; rw [if_neg (by simp only [patchWidth] at hout; omega)]
  · simp only [applyReloc]; rw [if_neg (by simp only [patchWidth] at hout; omega)]
  · simp only [applyReloc]; rw [if_neg (by simp only [patchWidth] at hout; omega)]

theorem applyReloc_unsupported (delta : Nat) (data : List Byte) (off type : Nat)
    (h : 3 < type) : applyReloc delta data off type = .error .unimplemented := by
  unfold applyReloc
  split
  · omega
  · omega
  · omega
  · omega
  · rfl
  · rfl

theorem relocateLoop_frame (delta data_rva : Nat) (lo hi : Nat) :
    ∀ (relocs : List relocinfo) (data : List Byte),
      (∀ x ∈ relocs, x.type ≤ 3) →
      (∀ x ∈ relocs, sub32 x.virtualaddress data_rva + patchWidth x.type ≤ data.length) →
      (∀ x ∈ relocs, patchWidth x.type = 0
        ∨ sub32 x.virtualaddress data_rva + patchWidth x.type ≤ lo
        ∨ hi ≤ sub32 x.virtualaddress data_rva) →
      ∃ d, relocateLoop delta data_rva relocs data = .ok d ∧ d.length = data.length
        ∧ ∀ k, lo ≤ k → k < hi → d.getD k 0 = data.getD k 0 := by
  intro relocs
  induction relocs with
  | nil => intro data _ _ _; exact ⟨data, rfl, rfl, fun _ _ _ => rfl⟩
  | cons r rest ih =>
    intro data hsup hinb hdis
    obtain ⟨d1, hd1⟩ := applyReloc_supported delta data (sub32 r.virtualaddress data_rva)
      r.type (hsup r (List.mem_cons_self _ _)) (hinb r (List.mem_cons_self _ _))
    obtain ⟨hlen1, hfr1⟩ := applyReloc_frame _ _ _ _ _ hd1
    obtain ⟨d, hd, hlen, hfr⟩ := ih d1 (fun x hx => hsup x (List.mem_cons_of_mem _ hx))
      (fun x hx => by rw [hlen1]; exact hinb x (List.mem_cons_of_mem _ hx))
      (fun x hx => hdis x (List.mem_cons_of_mem _ hx))
    refine ⟨d, ?_, by rw [hlen, hlen1], fun k h1 h2 => ?_⟩
    · simp only [relocateLoop, bind, Except.bind, hd1]
      exact hd
    · rw [hfr k h1 h2]
      apply hfr1
      have := hdis r (List.mem_cons_self _ _)
      omega

theorem relocateLoop_ok (delta data_rva : Nat) (relocs : List relocinfo) (data : List Byte)
    (hsup : ∀ x ∈ relocs, x.type ≤ 3)
    (hinb : ∀ x ∈ relocs,
      sub32 x.virtualaddress data_rva + patchWidth x.type ≤ data.length) :
    ∃ d, relocateLoop delta data_rva relocs data = .ok d ∧ d.length = data.length := by
  obtain ⟨d, hd, hl, _⟩ := relocateLoop_frame delta data_rva 0 0 relocs data hsup hinb
    (fun x _ => Or.inr (Or.inr (Nat.zero_le _)))
  exact ⟨d, hd, hl⟩

theorem relocateLoop_append (delta data_rva : Nat) :
    ∀ (pre post : List relocinfo) (data d1 : List Byte),
      relocateLoop delta data_rva pre data = .ok d1 →
      relocateLoop delta data_rva (pre ++ post) data = relocateLoop delta data_rva post d1 := by
  intro pre
  induction pre with
  | nil => intro post data d1 h; cases h; rfl
  | cons r rest ih =>
    intro post data d1 h
    simp only [relocateLoop, bind, Except.bind, List.cons_append] at h ⊢
    split at h
    · cases h
    · exact ih post _ _ h

/-! ## C4: the word patched by a HIGHLOW relocation -/

/-- C4 as stated fails: `relocFile [0x3000, 0x3000]` has two HIGHLOW
relocations of the word at RVA `0x2000`.  Loaded at `0x20000000` the delta is
`0x0FFFE000`; the word is `0x10001000` before Phase 3 and `0x2FFFD000` after
it, the delta having been added twice, and not `0x1FFFF000`. -/
theorem highlow_repeated_target :
    loadPhases12 (relocFile [0x3000, 0x3000])
        = .ok (relocModule [0x3000, 0x3000] [⟨0x10002000, 3⟩, ⟨0x10002000, 3⟩])
      ∧ (relocModule [0x3000, 0x3000] [⟨0x10002000, 3⟩, ⟨0x10002000, 3⟩]).relocate 0x20000000
        = .ok { relocModule [0x3000, 0x3000] [⟨0x10002000, 3⟩, ⟨0x10002000, 3⟩] with
                _data := bytesLE 4 0x2FFFD000 ++ zeros 4 ++ bytesLE 4 0x2000 ++ bytesLE 4 12
                          ++ bytesLE 2 0x3000 ++ bytesLE 2 0x3000 ++ zeros 12 }
      ∧ load32 (relocModule [0x3000, 0x3000] [⟨0x10002000, 3⟩, ⟨0x10002000, 3⟩])._data
          (sub32 0x10002000 (minvirtaddr [⟨272, 20, 0x10002000, 0x20⟩])) = 0x10001000
      ∧ relocDelta 0x20000000 [⟨272, 20, 0x10002000, 0x20⟩] = 0x0FFFE000
      ∧ load32 (bytesLE 4 0x2FFFD000 ++ zeros 4 ++ bytesLE 4 0x2000 ++ bytesLE 4 12
                  ++ bytesLE 2 0x3000 ++ bytesLE 2 0x3000 ++ zeros 12)
          (sub32 0x10002000 (minvirtaddr [⟨272, 20, 0x10002000, 0x20⟩]))
        ≠ (0x10001000 + 0x0FFFE000) % W32 := by
  refine ⟨?_, ?_, ?_, ?_, ?_⟩
  · decide!
  · decide!
  · decide!
  · decide!
  · decide!

/-- Phase 3 on a relocation list `pre ++ r :: post` with supported kinds and
all patched words inside the buffer, `r` being HIGHLOW and no other relocation
of the list writing one of its four bytes. -/
theorem relocateLoop_highlow (delta data_rva : Nat) (data : List Byte)
    (pre post : List relocinfo) (r : relocinfo)
    (hkind : r.type = 3)
    (hsup : ∀ x ∈ pre ++ r :: post, x.type ≤ 3)
    (hin : sub32 r.virtualaddress data_rva + 4 ≤ data.length)
    (hinb : ∀ x ∈ pre ++ post,
      sub32 x.virtualaddress data_rva + patchWidth x.type ≤ data.length)
    (hdis : ∀ x ∈ pre ++ post, patchWidth x.type = 0
      ∨ sub32 x.virtualaddress data_rva + patchWidth x.type ≤ sub32 r.virtualaddress data_rva
      ∨ sub32 r.virtualaddress data_rva + 4 ≤ sub32 x.virtualaddress data_rva) :
    ∃ d, relocateLoop delta data_rva (pre ++ r :: post) data = .ok d
      ∧ d.length = data.length
      ∧ load32 d (sub32 r.virtualaddress data_rva)
          = (load32 data (sub32 r.virtualaddress data_rva) + delta) % W32 := by
  obtain ⟨d1, hd1, hl1, hf1⟩ := relocateLoop_frame delta data_rva
    (sub32 r.virtualaddress data_rva) (sub32 r.virtualaddress data_rva + 4) pre data
    (fun x hx => hsup x (List.mem_append_left _ hx))
    (fun x hx => hinb x (List.mem_append_left _ hx))
    (fun x hx => hdis x (List.mem_append_left _ hx))
  have hlen2 : (store32 d1 (sub32 r.virtualaddress data_rva)
      ((load32 d1 (sub32 r.virtualaddress data_rva) + delta) % W32)).length = d1.length := by
    simp [store32, writeBytes_length]
  obtain ⟨d3, hd3, hl3, hf3⟩ := relocateLoop_frame delta data_rva
    (sub32 r.virtualaddress data_rva) (sub32 r.virtualaddress data_rva + 4) post
    (store32 d1 (sub32 r.virtualaddress data_rva)
      ((load32 d1 (sub32 r.virtualaddress data_rva) + delta) % W32))
    (fun x hx => hsup x (List.mem_append_right _ (List.mem_cons_of_mem _ hx)))
    (fun x hx => by rw [hlen2, hl1]; exact hinb x (List.mem_append_right _ hx))
    (fun x hx => hdis x (List.mem_append_right _ hx))
  refine ⟨d3, ?_, by rw [hl3, hlen2, hl1], ?_⟩
  · rw [relocateLoop_append delta data_rva pre (r :: post) data d1 hd1]
    simp only [relocateLoop, bind, Except.bind, hkind, applyReloc]
    rw [if_pos (by rw [hl1]; exact hin)]
    exact hd3
  · have e1 : load32 d3 (sub32 r.virtualaddress data_rva)
        = load32 (store32 d1 (sub32 r.virtualaddress data_rva)
            ((load32 d1 (sub32 r.virtualaddress data_rva) + delta) % W32))
            (sub32 r.virtualaddress data_rva) :=
      load32_congr _ _ _ hf3
    have e2 : load32 d1 (sub32 r.virtualaddress data_rva)
        = load32 data (sub32 r.virtualaddress data_rva) :=
      load32_congr _ _ _ hf1
    rw [e1, load32_store32 _ _ _ (by rw [hl1]; exact hin), e2, Nat.mod_mod]

/-- C4, amended: for every relocation of kind HIGHLOW (3) in a relocation
list whose kinds are all supported (0 to 3) and whose patched words all lie
inside the buffer, no other relocation of the list writing one of the four
bytes of its word, Phase 3 completes and afterwards the 32-bit little-endian
word at `buffer[vaddr - min_vaddr]` is (the word before Phase 3 + delta) mod
2^32, where delta = buffer_base - min_vaddr. -/
theorem relocate_highlow_word (m : DllModule) (base : Nat)
    (pre post : List relocinfo) (r : relocinfo)
    (hrel : m._pe._relocs = pre ++ r :: post)
    (hkind : r.type = 3)
    (hsup : ∀ x ∈ m._pe._relocs, x.type ≤ 3)
    (hinb : ∀ x ∈ m._pe._relocs,
      sub32 x.virtualaddress (minvirtaddr m._pe._sections) + patchWidth x.type
        ≤ m._data.length)
    (hdis : ∀ x ∈ pre ++ post, patchWidth x.type = 0
      ∨ sub32 x.virtualaddress (minvirtaddr m._pe._sections) + patchWidth x.type
          ≤ sub32 r.virtualaddress (minvirtaddr m._pe._sections)
      ∨ sub32 r.virtualaddress (minvirtaddr m._pe._sections) + 4
          ≤ sub32 x.virtualaddress (minvirtaddr m._pe._sections)) :
    ∃ m1, m.relocate base = .ok m1
      ∧ m1._data.length = m._data.length
      ∧ load32 m1._data (sub32 r.virtualaddress (minvirtaddr m._pe._sections))
          = (load32 m._data (sub32 r.virtualaddress (minvirtaddr m._pe._sections))
              + relocDelta base m._pe._sections) % W32 := by
  rw [hrel] at hsup hinb
  have hin : sub32 r.virtualaddress (minvirtaddr m._pe._sections) + 4 ≤ m._data.length := by
    have h := hinb r (List.mem_append_right _ (List.mem_cons_self _ _))
    rw [hkind] at h
    exact h
  obtain ⟨d, hd, hl, hw⟩ := relocateLoop_highlow (relocDelta base m._pe._sections)
    (minvirtaddr m._pe._sections % W32) m._data pre post r hkind hsup
    (by rw [sub32_mod_right]; exact hin)
    (by
      intro x hx
      rw [sub32_mod_right]
      rcases List.mem_append.mp hx with h | h
      · exact hinb x (List.mem_append_left _ h)
      · exact hinb x (List.mem_append_right _ (List.mem_cons_of_mem _ h)))
    (by intro x hx; simp only [sub32_mod_right]; exact hdis x hx)
  rw [sub32_mod_right] at hw
  refine ⟨{ m with _data := d }, ?_, hl, hw⟩
  simp only [DllModule.relocate, bind, Except.bind, hrel, hd]

/-- Witness of `relocate_highlow_word`: the module of
`relocFile [0x3000, 0x1004, 0x0000]` relocated at `0x20000000`. -/
theorem relocate_highlow_word_witness :
    loadPhases12 (relocFile [0x3000, 0x1004, 0x0000])
        = .ok (relocModule [0x3000, 0x1004, 0x0000]
            [⟨0x10002000, 3⟩, ⟨0x10002004, 1⟩, ⟨0x10002000, 0⟩])
    ∧ ∃ m1, (relocModule [0x3000, 0x1004, 0x0000]
            [⟨0x10002000, 3⟩, ⟨0x10002004, 1⟩, ⟨0x10002000, 0⟩]).relocate 0x20000000 = .ok m1
      ∧ m1._data.length = (relocModule [0x3000, 0x1004, 0x0000]
            [⟨0x10002000, 3⟩, ⟨0x10002004, 1⟩, ⟨0x10002000, 0⟩])._data.length
      ∧ load32 m1._data (sub32 0x10002000 (minvirtaddr [⟨272, 22, 0x10002000, 0x20⟩]))
          = (load32 (relocModule [0x3000, 0x1004, 0x0000]
                [⟨0x10002000, 3⟩, ⟨0x10002004, 1⟩, ⟨0x10002000, 0⟩])._data
                (sub32 0x10002000 (minvirtaddr [⟨272, 22, 0x10002000, 0x20⟩]))
              + relocDelta 0x20000000 [⟨272, 22, 0x10002000, 0x20⟩]) % W32 :=
  ⟨by decide!,
   relocate_highlow_word
    (relocModule [0x3000, 0x1004, 0x0000] [⟨0x10002000, 3⟩, ⟨0x10002004, 1⟩, ⟨0x10002000, 0⟩])
    0x20000000 [] [⟨0x10002004, 1⟩, ⟨0x10002000, 0⟩] ⟨0x10002000, 3⟩
    (by decide!) (by decide!) (by decide!) (by decide!) (by decide!)⟩

/-! ## C5: the delta of scenario 3 -/

/-- C5 as stated fails: `relocFile [0x3000]` has preferred base `0x10000000`,
the word `0x10001000` at RVA `0x2000` and a HIGHLOW relocation there; its only
section starts at RVA `0x2000`.  Loaded at A = `0x20000000` the word becomes
`0x1FFFF000`, which is w + (A - min_vaddr), and not w + (A - B) =
`0x20001000`. -/
theorem highlow_delta_is_not_base_difference :
    loadPhases12 (relocFile [0x3000]) = .ok (relocModule [0x3000] [⟨0x10002000, 3⟩])
      ∧ (relocModule [0x3000] [⟨0x10002000, 3⟩])._pe._vbase = 0x10000000
      ∧ load32 (relocModule [0x3000] [⟨0x10002000, 3⟩])._data
          (sub32 (0x10000000 + 0x2000) (minvirtaddr [⟨272, 18, 0x10002000, 0x20⟩]))
          = 0x10001000
      ∧ DllModule.create sampleStubs 0x20000000 (some (relocFile [0x3000]))
          = .ok { relocModule [0x3000] [⟨0x10002000, 3⟩] with
                  _data := bytesLE 4 0x1FFFF000 ++ zeros 4 ++ bytesLE 4 0x2000 ++ bytesLE 4 10
                            ++ bytesLE 2 0x3000 ++ zeros 14 }
      ∧ load32 (bytesLE 4 0x1FFFF000 ++ zeros 4 ++ bytesLE 4 0x2000 ++ bytesLE 4 10
                  ++ bytesLE 2 0x3000 ++ zeros 14)
          (sub32 (0x10000000 + 0x2000) (minvirtaddr [⟨272, 18, 0x10002000, 0x20⟩]))
          = 0x1FFFF000
      ∧ (0x10001000 + sub32 0x20000000 0x10000000) % W32 = 0x20001000 := by
  refine ⟨?_, ?_, ?_, ?_, ?_, ?_⟩
  · decide!
  · decide!
  · decide!
  · decide!
  · decide!
  · decide!

/-- C5, amended: for an image with preferred base B and no imports whose
only relocation is a HIGHLOW at RVA `rva`, the section content holding the
32-bit word w there, loading into a buffer at address A succeeds and the word
at `buffer + (B + rva - min_vaddr)` becomes w + (A - min_vaddr) mod 2^32: the
delta that relocate applies is the buffer address minus the virtual address
of the lowest section, not minus the preferred base. -/
theorem highlow_delta_from_min_vaddr (st : Stubs) (A : Nat) (bytes : List Byte)
    (pe : PEFileInfo) (f : posixfile) (m0 : DllModule) (B rva w : Nat)
    (hparse : PEFileInfo.parse { bytes := bytes, pos := 0 } = .ok (pe, f))
    (hload : load_sections f pe = .ok m0)
    (hB : pe._vbase = B)
    (hrel : pe._relocs = [⟨(B + rva) % W32, 3⟩])
    (himp : pe._imports = [])
    (hin : sub32 ((B + rva) % W32) (minvirtaddr pe._sections) + 4 ≤ m0._data.length)
    (hw : load32 m0._data (sub32 ((B + rva) % W32) (minvirtaddr pe._sections)) = w) :
    ∃ m, DllModule.create st A (some bytes) = .ok m
      ∧ load32 m._data (sub32 ((B + rva) % W32) (minvirtaddr pe._sections))
          = (w + sub32 A (minvirtaddr pe._sections)) % W32 := by
  subst hB
  obtain ⟨hpe, _, _⟩ := load_sections_fields f pe m0 hload
  obtain ⟨d, hd, _, hword⟩ := relocateLoop_highlow (relocDelta A pe._sections)
    (minvirtaddr pe._sections % W32) m0._data [] [] ⟨(pe._vbase + rva) % W32, 3⟩ rfl
    (by intro x hx; simp at hx; rw [hx])
    (by rw [sub32_mod_right]; exact hin)
    (by intro x hx; simp at hx)
    (by intro x hx; simp at hx)
  rw [sub32_mod_right] at hword
  have hm1 : m0.relocate A = .ok { m0 with _data := d } := by
    simp only [DllModule.relocate, bind, Except.bind, hpe, hrel]
    simp only [List.nil_append] at hd
    rw [hd]
  have him : DllModule.import_ st { m0 with _data := d } = .ok { m0 with _data := d } := by
    simp only [DllModule.import_, hpe, himp, importLoop, bind, Except.bind]
  refine ⟨{ m0 with _data := d }, ?_, ?_⟩
  · simp only [DllModule.create, posixfile.fopen, bind, Except.bind, hparse, hload, hm1, him]
  · show load32 d _ = _
    rw [hword, hw]
    simp only [relocDelta, sub32_mod_right]

/-- Witness of `highlow_delta_from_min_vaddr`: scenario 3 as
`relocFile [0x3000]`, loaded at `0x20000000`. -/
theorem highlow_delta_from_min_vaddr_witness :
    ∃ m, DllModule.create sampleStubs 0x20000000 (some (relocFile [0x3000])) = .ok m
      ∧ load32 m._data
          (sub32 ((0x10000000 + 0x2000) % W32) (minvirtaddr [⟨272, 18, 0x10002000, 0x20⟩]))
          = (0x10001000 + sub32 0x20000000 (minvirtaddr [⟨272, 18, 0x10002000, 0x20⟩])) % W32 :=
  highlow_delta_from_min_vaddr sampleStubs 0x20000000 (relocFile [0x3000])
    (relocModule [0x3000] [⟨0x10002000, 3⟩])._pe
    { bytes := relocFile [0x3000], pos := 290 }
    (relocModule [0x3000] [⟨0x10002000, 3⟩]) 0x10000000 0x2000 0x10001000
    (by decide!) (by decide!) (by decide!) (by decide!) (by decide!) (by decide!) (by decide!)

/-! ## C6: an unsupported relocation -/

theorem seek_error (f : posixfile) (o : Nat) (e : Error) (h : f.seek o = .error e) :
    e = .posixerror "fseek" := by
  unfold posixfile.seek at h
  split at h
  · cases h
  · cases h; rfl

theorem readexact_error (f : posixfile) (n : Nat) (e : Error) (h : f.readexact n = .error e) :
    e = .posixerror "fread" := by
  unfold posixfile.readexact at h
  split at h
  · cases h; rfl
  · split at h
    · cases h
    · cases h; rfl

theorem copySections_error (minva : Nat) : ∀ (secs : List sectioninfo) (f : posixfile)
    (data : List Byte) (e : Error),
    (∀ s ∈ secs, sub32 s.virtualaddress minva + s.filesize ≤ data.length) →
    copySections minva secs f data = .error e →
    ∃ fn, e = .posixerror fn := by
  intro secs
  induction secs with
  | nil => intro f data e _ h; cases h
  | cons s rest ih =>
    intro f data e hin h
    simp only [copySections, bind, Except.bind] at h
    split at h
    · rename_i e1 h1
      cases h
      exact ⟨_, seek_error _ _ _ h1⟩
    · rw [if_pos (hin s (List.mem_cons_self _ _))] at h
      split at h
      · rename_i e2 h2
        cases h
        exact ⟨_, readexact_error _ _ _ h2⟩
      · exact ih _ _ _
          (fun x hx => by rw [writeBytes_length]; exact hin x (List.mem_cons_of_mem _ hx)) h

theorem vectorAlloc_error (n sz : Nat) (e : Error) (h : vectorAlloc n sz = .error e) :
    e = .bad_alloc := by
  unfold vectorAlloc at h
  split at h
  · cases h
  · cases h; rfl

/-- Phases 1 and 2 on sections that are copied inside the buffer end with a
module or with an exception. -/
theorem load_sections_error (f : posixfile) (pe : PEFileInfo) (e : Error)
    (hin : ∀ s ∈ pe._sections,
      sub32 s.virtualaddress (minvirtaddr pe._sections) + s.filesize
        ≤ sub32 (maxvirtaddr pe._sections) (minvirtaddr pe._sections))
    (h : load_sections f pe = .error e) : e = .bad_alloc ∨ ∃ fn, e = .posixerror fn := by
  simp only [load_sections, bind, Except.bind] at h
  split at h
  · rename_i e0 h0
    cases h
    exact Or.inl (vectorAlloc_error _ _ _ h0)
  · split at h
    · rename_i e1 h1
      cases h
      exact Or.inr (copySections_error _ _ _ _ _
        (fun s hs => by rw [List.length_replicate]; exact hin s hs) h1)
    · cases h

theorem relocateLoop_unsupported (delta data_rva : Nat) (pre post : List relocinfo)
    (r : relocinfo) (data : List Byte)
    (hbad : 3 < r.type)
    (hpre : ∀ x ∈ pre, x.type ≤ 3
      ∧ sub32 x.virtualaddress data_rva + patchWidth x.type ≤ data.length) :
    relocateLoop delta data_rva (pre ++ r :: post) data = .error .unimplemented := by
  obtain ⟨d1, hd1, _⟩ := relocateLoop_ok delta data_rva pre data
    (fun x hx => (hpre x hx).1) (fun x hx => (hpre x hx).2)
  rw [relocateLoop_append delta data_rva pre (r :: post) data d1 hd1]
  simp only [relocateLoop, bind, Except.bind, applyReloc_unsupported _ _ _ _ hbad]

/-- C6 as stated fails: `relocFile [0x3100, 0x4004]` has a HIGHLOW relocation
at RVA `0x2100` followed by a HIGHADJ relocation; the buffer has `0x20` bytes,
for the one section at RVA `0x2000`.  Phase 3 applies the first relocation to
the word at buffer offset `0x100`, outside the buffer, before it comes to the
unsupported one: the run leaves defined behaviour, and `LoadLibrary` is not
known to return the null handle with `ERROR_MOD_NOT_FOUND`. -/
theorem unsupported_after_wild_relocation :
    (PEFileInfo.parse { bytes := relocFile [0x3100, 0x4004], pos := 0 }).toOption.map
        (fun r => (r.1._sections, r.1._relocs))
      = some ([⟨272, 20, 0x10002000, 0x20⟩], [⟨0x10002100, 3⟩, ⟨0x10002004, 4⟩])
      ∧ (loadPhases12 (relocFile [0x3100, 0x4004])).toOption.map (fun m => m._data.length)
          = some 0x20
      ∧ sub32 0x10002100 (minvirtaddr [⟨272, 20, 0x10002000, 0x20⟩]) = 0x100
      ∧ DllModule.create sampleStubs 0x20000000 (some (relocFile [0x3100, 0x4004]))
          = .error .undefined
      ∧ LoadLibrary win32Codes sampleStubs 0x20000000 (some (relocFile [0x3100, 0x4004]))
            { g_lasterror := 0 }
          = none
      ∧ LoadLibrary win32Codes sampleStubs 0x20000000 (some (relocFile [0x3100, 0x4004]))
            { g_lasterror := 0 }
          ≠ some (none, { g_lasterror := win32Codes.ERROR_MOD_NOT_FOUND }) := by
  refine ⟨?_, ?_, ?_, ?_, ?_, ?_⟩ <;> decide!

/-- C6, amended: for every image that parses, whose sections are copied
inside the buffer, and whose relocation list has a first entry of kind 4
(HIGHADJ) or of any other kind above 3, the relocations in front of it
patching words inside the buffer, `LoadLibrary` returns the null handle and
sets the last-error slot to `ERROR_MOD_NOT_FOUND`, whatever relocations were
applied before that entry. -/
theorem load_unsupported_relocation (codes : ErrorCodes) (st : Stubs) (base : Nat)
    (bytes : List Byte) (g : Globals) (pe : PEFileInfo) (f : posixfile)
    (pre post : List relocinfo) (r : relocinfo)
    (hparse : PEFileInfo.parse { bytes := bytes, pos := 0 } = .ok (pe, f))
    (hsec : ∀ s ∈ pe._sections,
      sub32 s.virtualaddress (minvirtaddr pe._sections) + s.filesize
        ≤ sub32 (maxvirtaddr pe._sections) (minvirtaddr pe._sections))
    (hrel : pe._relocs = pre ++ r :: post)
    (hbad : 3 < r.type)
    (hpre : ∀ x ∈ pre, x.type ≤ 3
      ∧ sub32 x.virtualaddress (minvirtaddr pe._sections) + patchWidth x.type
          ≤ sub32 (maxvirtaddr pe._sections) (minvirtaddr pe._sections)) :
    LoadLibrary codes st base (some bytes) g
      = some (none, { g_lasterror := codes.ERROR_MOD_NOT_FOUND }) := by
  unfold LoadLibrary
  cases hl : load_sections f pe with
  | error e =>
    simp only [DllModule.create, posixfile.fopen, bind, Except.bind, hparse, hl]
    rcases load_sections_error f pe e hsec hl with rfl | ⟨fn, rfl⟩
    · rfl
    · rfl
  | ok m0 =>
    obtain ⟨hpe, _, _⟩ := load_sections_fields f pe m0 hl
    obtain ⟨hlen, _⟩ := load_sections_length f pe m0 hl
    have hr : m0.relocate base = .error .unimplemented := by
      simp only [DllModule.relocate, bind, Except.bind, hpe, hrel]
      rw [relocateLoop_unsupported _ _ pre post r m0._data hbad
        (fun x hx => ⟨(hpre x hx).1, by rw [sub32_mod_right, hlen]; exact (hpre x hx).2⟩)]
    simp only [DllModule.create, posixfile.fopen, bind, Except.bind, hparse, hl, hr]
    rfl

/-- Witness of `load_unsupported_relocation`: `relocFile [0x3000, 0x4004]`, a
HIGHLOW relocation of the word at RVA `0x2000` followed by a HIGHADJ one. -/
theorem load_unsupported_relocation_witness :
    LoadLibrary win32Codes sampleStubs 0x20000000 (some (relocFile [0x3000, 0x4004]))
        { g_lasterror := 0 }
      = some (none, { g_lasterror := win32Codes.ERROR_MOD_NOT_FOUND }) :=
  load_unsupported_relocation win32Codes sampleStubs 0x20000000 (relocFile [0x3000, 0x4004])
    { g_lasterror := 0 }
    (relocModule [0x3000, 0x4004] [⟨0x10002000, 3⟩, ⟨0x10002004, 4⟩])._pe
    { bytes := relocFile [0x3000, 0x4004], pos := 292 }
    [⟨0x10002000, 3⟩] [] ⟨0x10002004, 4⟩
    (by decide!) (by decide!) (by decide!) (by decide!) (by decide!)

/-! ## C7: relocation with delta 0 -/

theorem applyReloc_zero (data : List Byte) (off type : Nat) (h : type ≤ 3)
    (hin : off + patchWidth type ≤ data.length) :
    applyReloc 0 data off type = .ok data := by
  obtain rfl | rfl | rfl | rfl : type = 0 ∨ type = 1 ∨ type = 2 ∨ type = 3 := by omega
  · rfl
  · simp only [applyReloc]
    rw [if_pos (show off + 2 ≤ data.length from hin)]
    have h1 : (load16 data off + 0 >>> 16) % W16 = load16 data off := by
      simp only [Nat.zero_shiftRight, Nat.add_zero]
      exact Nat.mod_eq_of_lt (load16_lt data off)
    rw [h1, store16_load16]
  · simp only [applyReloc]
    rw [if_pos (show off + 2 ≤ data.length from hin)]
    have h1 : (load16 data off + (0 &&& 0xFFFF)) % W16 = load16 data off := by
      simp only [Nat.zero_and, Nat.add_zero]
      exact Nat.mod_eq_of_lt (load16_lt data off)
    rw [h1, store16_load16]
  · simp only [applyReloc]
    rw [if_pos (show off + 4 ≤ data.length from hin)]
    have h1 : (load32 data off + 0) % W32 = load32 data off := by
      simp only [Nat.add_zero]
      exact Nat.mod_eq_of_lt (load32_lt data off)
    rw [h1, store32_load32]

theorem relocateLoop_zero (data_rva : Nat) : ∀ (relocs : List relocinfo) (data : List Byte),
    (∀ r ∈ relocs, r.type ≤ 3
      ∧ sub32 r.virtualaddress data_rva + patchWidth r.type ≤ data.length) →
    relocateLoop 0 data_rva relocs data = .ok data := by
  intro relocs
  induction relocs with
  | nil => intro data _; rfl
  | cons r rest ih =>
    intro data h
    simp only [relocateLoop, bind, Except.bind,
      applyReloc_zero data _ r.type (h r (List.mem_cons_self _ _)).1
        (h r (List.mem_cons_self _ _)).2]
    exact ih data (fun x hx => h x (List.mem_cons_of_mem _ hx))

/-- C7 as stated fails: the module of `relocFile [0x3100]` has a buffer of
`0x20` bytes and one HIGHLOW relocation, of the word at buffer offset `0x100`.
Loaded at the address of its lowest section the delta is 0, and Phase 3 reads
and writes that word outside the buffer: it does not complete with the buffer
as it was, the run leaves defined behaviour. -/
theorem relocate_zero_outside_buffer :
    loadPhases12 (relocFile [0x3100]) = .ok (relocModule [0x3100] [⟨0x10002100, 3⟩])
      ∧ (relocModule [0x3100] [⟨0x10002100, 3⟩])._data.length = 0x20
      ∧ sub32 0x10002100 (minvirtaddr (relocModule [0x3100] [⟨0x10002100, 3⟩])._pe._sections)
          = 0x100
      ∧ relocDelta 0x10002000 (relocModule [0x3100] [⟨0x10002100, 3⟩])._pe._sections = 0
      ∧ (relocModule [0x3100] [⟨0x10002100, 3⟩]).relocate 0x10002000 = .error .undefined
      ∧ (relocModule [0x3100] [⟨0x10002100, 3⟩]).relocate 0x10002000
          ≠ .ok (relocModule [0x3100] [⟨0x10002100, 3⟩]) := by
  refine ⟨?_, ?_, ?_, ?_, ?_, ?_⟩ <;> decide!

/-- C7, amended: for every module (every buffer) and every relocation list
whose kinds are all in 0, 1, 2, 3 and whose patched words all lie inside the
buffer, repeated and overlapping targets included, Phase 3 with delta = 0
completes and leaves the module, and so every byte of the buffer, as it was
after Phases 1 and 2. -/
theorem relocate_delta_zero (m : DllModule) (base : Nat)
    (hdelta : relocDelta base m._pe._sections = 0)
    (hkinds : ∀ r ∈ m._pe._relocs, r.type ≤ 3)
    (hinb : ∀ r ∈ m._pe._relocs,
      sub32 r.virtualaddress (minvirtaddr m._pe._sections) + patchWidth r.type
        ≤ m._data.length) :
    m.relocate base = .ok m := by
  simp only [DllModule.relocate, bind, Except.bind, hdelta,
    relocateLoop_zero _ m._pe._relocs m._data
      (fun r hr => ⟨hkinds r hr, by rw [sub32_mod_right]; exact hinb r hr⟩)]

/-- Witness of `relocate_delta_zero`: `relocFile` with four relocations of
the kinds 3, 1, 2, 0, two of them on the same word, loaded at the address of
its lowest section. -/
theorem relocate_delta_zero_witness :
    loadPhases12 (relocFile [0x3000, 0x1002, 0x2006, 0x0000])
        = .ok (relocModule [0x3000, 0x1002, 0x2006, 0x0000]
            [⟨0x10002000, 3⟩, ⟨0x10002002, 1⟩, ⟨0x10002006, 2⟩, ⟨0x10002000, 0⟩])
      ∧ (relocModule [0x3000, 0x1002, 0x2006, 0x0000]
            [⟨0x10002000, 3⟩, ⟨0x10002002, 1⟩, ⟨0x10002006, 2⟩, ⟨0x10002000, 0⟩]).relocate
            0x10002000
        = .ok (relocModule [0x3000, 0x1002, 0x2006, 0x0000]
            [⟨0x10002000, 3⟩, ⟨0x10002002, 1⟩, ⟨0x10002006, 2⟩, ⟨0x10002000, 0⟩]) :=
  ⟨by decide!,
   relocate_delta_zero
    (relocModule [0x3000, 0x1002, 0x2006, 0x0000]
      [⟨0x10002000, 3⟩, ⟨0x10002002, 1⟩, ⟨0x10002006, 2⟩, ⟨0x10002000, 0⟩])
    0x10002000 (by decide!) (by decide!) (by decide!)⟩

/-! ## The lowest and the highest virtual address -/

theorem minvirtaddrFrom_le (secs : List sectioninfo) : ∀ (i a : Nat), i ≠ 0 →
    minvirtaddrFrom i a secs ≤ a ∧ ∀ s ∈ secs, minvirtaddrFrom i a secs ≤ s.virtualaddress := by
  induction secs with
  | nil => intro i a _; exact ⟨Nat.le_refl _, fun s hs => by cases hs⟩
  | cons x rest ih =>
    intro i a hi
    unfold minvirtaddrFrom
    obtain ⟨h1, h2⟩ := ih (i + 1) (if i = 0 ∨ x.virtualaddress < a then x.virtualaddress else a)
      (by omega)
    have h3 : (if i = 0 ∨ x.virtualaddress < a then x.virtualaddress else a) ≤ a
        ∧ (if i = 0 ∨ x.virtualaddress < a then x.virtualaddress else a) ≤ x.virtualaddress := by
      split
      · rename_i hc
        constructor
        · omega
        · exact Nat.le_refl _
      · rename_i hc
        constructor
        · exact Nat.le_refl _
        · omega
    refine ⟨Nat.le_trans h1 h3.1, fun s hs => ?_⟩
    rcases List.mem_cons.mp hs with rfl | hs
    · exact Nat.le_trans h1 h3.2
    · exact h2 s hs

theorem minvirtaddrFrom_attained (secs : List sectioninfo) : ∀ (i a : Nat), i ≠ 0 →
    minvirtaddrFrom i a secs = a ∨ ∃ s ∈ secs, minvirtaddrFrom i a secs = s.virtualaddress := by
  induction secs with
  | nil => intro i a _; exact Or.inl rfl
  | cons x rest ih =>
    intro i a hi
    unfold minvirtaddrFrom
    rcases ih (i + 1) (if i = 0 ∨ x.virtualaddress < a then x.virtualaddress else a)
      (by omega) with h | ⟨s, hs, h⟩
    · rw [h]
      split
      · exact Or.inr ⟨x, List.mem_cons_self _ _, rfl⟩
      · exact Or.inl rfl
    · exact Or.inr ⟨s, List.mem_cons_of_mem _ hs, h⟩

/-- The value of `minvirtaddr` is the least virtual address of a section. -/
theorem minvirtaddr_least (secs : List sectioninfo) (hne : secs ≠ []) :
    (∀ s ∈ secs, minvirtaddr secs ≤ s.virtualaddress)
      ∧ ∃ s ∈ secs, minvirtaddr secs = s.virtualaddress := by
  cases secs with
  | nil => exact absurd rfl hne
  | cons x rest =>
    have hunf : minvirtaddr (x :: rest) = minvirtaddrFrom 1 x.virtualaddress rest := by
      simp [minvirtaddr, minvirtaddrFrom]
    rw [hunf]
    obtain ⟨h1, h2⟩ := minvirtaddrFrom_le rest 1 x.virtualaddress (by omega)
    constructor
    · intro s hs
      rcases List.mem_cons.mp hs with rfl | hs
      · exact h1
      · exact h2 s hs
    · rcases minvirtaddrFrom_attained rest 1 x.virtualaddress (by omega) with h | ⟨s, hs, h⟩
      · exact ⟨x, List.mem_cons_self _ _, h⟩
      · exact ⟨s, List.mem_cons_of_mem _ hs, h⟩

theorem maxvirtaddrFrom_ge (secs : List sectioninfo) : ∀ (i a : Nat), i ≠ 0 →
    a ≤ maxvirtaddrFrom i a secs ∧ ∀ s ∈ secs, sectionend s ≤ maxvirtaddrFrom i a secs := by
  induction secs with
  | nil => intro i a _; exact ⟨Nat.le_refl _, fun s hs => by cases hs⟩
  | cons x rest ih =>
    intro i a hi
    unfold maxvirtaddrFrom
    obtain ⟨h1, h2⟩ := ih (i + 1) (if i = 0 ∨ sectionend x > a then sectionend x else a)
      (by omega)
    have h3 : a ≤ (if i = 0 ∨ sectionend x > a then sectionend x else a)
        ∧ sectionend x ≤ (if i = 0 ∨ sectionend x > a then sectionend x else a) := by
      split
      · rename_i hc
        constructor
        · omega
        · exact Nat.le_refl _
      · rename_i hc
        constructor
        · exact Nat.le_refl _
        · omega
    refine ⟨Nat.le_trans h3.1 h1, fun s hs => ?_⟩
    rcases List.mem_cons.mp hs with rfl | hs
    · exact Nat.le_trans h3.2 h1
    · exact h2 s hs

theorem maxvirtaddrFrom_attained (secs : List sectioninfo) : ∀ (i a : Nat), i ≠ 0 →
    maxvirtaddrFrom i a secs = a ∨ ∃ s ∈ secs, maxvirtaddrFrom i a secs = sectionend s := by
  induction secs with
  | nil => intro i a _; exact Or.inl rfl
  | cons x rest ih =>
    intro i a hi
    unfold maxvirtaddrFrom
    rcases ih (i + 1) (if i = 0 ∨ sectionend x > a then sectionend x else a)
      (by omega) with h | ⟨s, hs, h⟩
    · rw [h]
      split
      · exact Or.inr ⟨x, List.mem_cons_self _ _, rfl⟩
      · exact Or.inl rfl
    · exact Or.inr ⟨s, List.mem_cons_of_mem _ hs, h⟩

/-- The value of `maxvirtaddr` is the greatest 32-bit section end. -/
theorem maxvirtaddr_greatest (secs : List sectioninfo) (hne : secs ≠ []) :
    (∀ s ∈ secs, sectionend s ≤ maxvirtaddr secs)
      ∧ ∃ s ∈ secs, maxvirtaddr secs = sectionend s := by
  cases secs with
  | nil => exact absurd rfl hne
  | cons x rest =>
    have hunf : maxvirtaddr (x :: rest) = maxvirtaddrFrom 1 (sectionend x) rest := by
      simp [maxvirtaddr, maxvirtaddrFrom]
    rw [hunf]
    obtain ⟨h1, h2⟩ := maxvirtaddrFrom_ge rest 1 (sectionend x) (by omega)
    constructor
    · intro s hs
      rcases List.mem_cons.mp hs with rfl | hs
      · exact h1
      · exact h2 s hs
    · rcases maxvirtaddrFrom_attained rest 1 (sectionend x) (by omega) with h | ⟨s, hs, h⟩
      · exact ⟨x, List.mem_cons_self _ _, h⟩
      · exact ⟨s, List.mem_cons_of_mem _ hs, h⟩

/-! ## C8: the buffer after Phases 1 and 2 -/

theorem seek_ok (f : posixfile) (o : Nat) (h : o < 2 ^ 31) :
    f.seek o = .ok { f with pos := o } := by
  unfold posixfile.seek
  have h1 : o % W32 = o := Nat.mod_eq_of_lt (by unfold W32; omega)
  rw [h1, if_pos h]

theorem readexact_ok (f : posixfile) (n : Nat) (h0 : 0 < n) (h : f.pos + n ≤ f.bytes.length) :
    f.readexact n = .ok ((f.bytes.drop f.pos).take n, { f with pos := f.pos + n }) := by
  unfold posixfile.readexact
  rw [if_neg (by omega), if_pos h]

theorem getD_take_drop (bs : List Byte) (o n k : Nat) (hk : k < n) :
    ((bs.drop o).take n).getD k 0 = bs.getD (o + k) 0 := by
  simp only [List.getD_eq_getElem?_getD, List.getElem?_take, List.getElem?_drop, if_pos hk]

theorem length_take_drop (bs : List Byte) (o n : Nat) (h : o + n ≤ bs.length) :
    ((bs.drop o).take n).length = n := by
  simp only [List.length_take, List.length_drop]
  omega

theorem copySections_spec (minva : Nat) (bytes : List Byte) :
    ∀ (secs : List sectioninfo) (f : posixfile) (data : List Byte),
      f.bytes = bytes →
      (∀ s ∈ secs, 0 < s.filesize ∧ s.fileoffset < 2 ^ 31
        ∧ s.fileoffset + s.filesize ≤ bytes.length
        ∧ sub32 s.virtualaddress minva + s.filesize ≤ data.length) →
      secs.Pairwise (fun a b =>
        sub32 a.virtualaddress minva + a.filesize ≤ sub32 b.virtualaddress minva
        ∨ sub32 b.virtualaddress minva + b.filesize ≤ sub32 a.virtualaddress minva) →
      ∃ d f1, copySections minva secs f data = .ok (d, f1) ∧ d.length = data.length
        ∧ (∀ s ∈ secs, ∀ k, k < s.filesize →
            d.getD (sub32 s.virtualaddress minva + k) 0 = bytes.getD (s.fileoffset + k) 0)
        ∧ (∀ j, (∀ s ∈ secs, ¬ (sub32 s.virtualaddress minva ≤ j
                  ∧ j < sub32 s.virtualaddress minva + s.filesize)) →
            d.getD j 0 = data.getD j 0) := by
  intro secs
  induction secs with
  | nil =>
    intro f data _ _ _
    exact ⟨data, f, rfl, rfl, fun s hs => absurd hs (List.not_mem_nil _), fun _ _ => rfl⟩
  | cons s rest ih =>
    intro f data hb hsec hdis
    subst hb
    obtain ⟨hpos, hfo, hfile, hin⟩ := hsec s (List.mem_cons_self _ _)
    have hseek := seek_ok f s.fileoffset hfo
    have hread := readexact_ok { f with pos := s.fileoffset } s.filesize hpos hfile
    have hlen : ((f.bytes.drop s.fileoffset).take s.filesize).length = s.filesize :=
      length_take_drop f.bytes _ _ hfile
    obtain ⟨hd1, hd2⟩ := List.pairwise_cons.mp hdis
    obtain ⟨d, f1, hd, hdl, hcopy, hframe⟩ := ih
      { f with pos := s.fileoffset + s.filesize }
      (writeBytes data (sub32 s.virtualaddress minva)
        ((f.bytes.drop s.fileoffset).take s.filesize))
      rfl
      (fun x hx => by
        obtain ⟨a, b, c, e⟩ := hsec x (List.mem_cons_of_mem _ hx)
        exact ⟨a, b, c, by rw [writeBytes_length]; exact e⟩)
      hd2
    refine ⟨d, f1, ?_, by rw [hdl, writeBytes_length], ?_, ?_⟩
    · simp only [copySections, bind, Except.bind, hseek]
      rw [if_pos hin]
      simp only [hread]
      exact hd
    · intro x hx k hk
      rcases List.mem_cons.mp hx with rfl | hx
      · rw [hframe _ (fun y hy => by have := hd1 y hy; omega)]
        rw [getD_writeBytes, if_pos (by rw [hlen]; omega)]
        have e : sub32 x.virtualaddress minva + k - sub32 x.virtualaddress minva = k := by omega
        rw [e, getD_take_drop _ _ _ _ hk]
      · exact hcopy x hx k hk
    · intro j hj
      rw [hframe j (fun y hy => hj y (List.mem_cons_of_mem _ hy))]
      rw [getD_writeBytes, if_neg]
      rw [hlen]
      have := hj s (List.mem_cons_self _ _)
      omega

theorem sub32_of_le (a b : Nat) (hab : b ≤ a) (ha : a < W32) : sub32 a b = a - b := by
  unfold sub32
  have hb : b < W32 := by omega
  rw [Nat.mod_eq_of_lt ha, Nat.mod_eq_of_lt hb]
  have : a + W32 - b = (a - b) + W32 := by omega
  rw [this, Nat.add_mod_right, Nat.mod_eq_of_lt (by omega)]

/-- C8 as stated fails.  First conjunct: the file `peFile ... [0x90, ...]`
cut after 274 bytes still parses into one section with file offset 272 and
file size 4, but holds only 2 of the 4 bytes, and Phase 2 ends in
`posixerror("fread")`, so there is no buffer.  Second conjunct: for the
sections at `0x10` (size `0x10`) and at `0xFFFFFFF0` (size `0x20`), which do
not overlap, Phase 1 asks for `0x10` bytes, the section end being taken as a
32-bit value, and not for the span from the lowest address to the highest
end. -/
theorem load_sections_layout_fails :
    loadPhases12 ((peFile 0x10000000 0x1000 0x10 (0, 0) (0, 0) (0, 0)
        (List.replicate 4 0x90)).take 274) = .error (.posixerror "fread")
      ∧ (PEFileInfo.parse { bytes := (peFile 0x10000000 0x1000 0x10 (0, 0) (0, 0) (0, 0)
            (List.replicate 4 0x90)).take 274, pos := 0 }).toOption.map (fun r => r.1._sections)
          = some [⟨272, 4, 0x10001000, 0x10⟩]
      ∧ sub32 (maxvirtaddr [⟨0x400, 4, 0x10, 0x10⟩, ⟨0x404, 4, 0xFFFFFFF0, 0x20⟩])
            (minvirtaddr [⟨0x400, 4, 0x10, 0x10⟩, ⟨0x404, 4, 0xFFFFFFF0, 0x20⟩]) = 0x10
      ∧ 0x10 ≠ (0xFFFFFFF0 + 0x20) - 0x10 := by
  refine ⟨?_, ?_, ?_, ?_⟩
  · decide!
  · decide!
  · decide!
  · decide!

/-- C8, amended: for every descriptor with at least one section whose
sections do not overlap pairwise, each section having a file size of at least
one byte, its bytes present in the file at a file offset below 2^31, and its
end `vaddr + max(vsize, fsize)` below 2^32, the span `max_vaddr - min_vaddr`
being below 2^31 bytes, a size that the vector accepts, Phases 1 and 2 succeed
(the allocator having the memory); the buffer
has length `max_vaddr - min_vaddr`, where `min_vaddr` is the minimum section
vaddr and `max_vaddr` the maximum of `vaddr + max(vsize, fsize)`; for every
section the bytes at buffer offsets `[vaddr - min_vaddr, vaddr - min_vaddr +
fsize)` are the file bytes at `[file_offset, file_offset + fsize)`; and every
other byte of the buffer is zero. -/
theorem load_sections_layout (f : posixfile) (pe : PEFileInfo)
    (hne : pe._sections ≠ [])
    (hsec : ∀ s ∈ pe._sections, 0 < s.filesize ∧ s.fileoffset < 2 ^ 31
      ∧ s.fileoffset + s.filesize ≤ f.bytes.length
      ∧ s.virtualaddress + max s.virtualsize s.filesize < 2 ^ 32)
    (hdis : pe._sections.Pairwise (fun a b =>
      a.virtualaddress + max a.virtualsize a.filesize ≤ b.virtualaddress
      ∨ b.virtualaddress + max b.virtualsize b.filesize ≤ a.virtualaddress))
    (halloc : maxvirtaddr pe._sections - minvirtaddr pe._sections < 2 ^ 31) :
    ∃ m, load_sections f pe = .ok m
      ∧ (∀ s ∈ pe._sections, minvirtaddr pe._sections ≤ s.virtualaddress
          ∧ s.virtualaddress + max s.virtualsize s.filesize ≤ maxvirtaddr pe._sections)
      ∧ (∃ s ∈ pe._sections, minvirtaddr pe._sections = s.virtualaddress)
      ∧ (∃ s ∈ pe._sections,
          maxvirtaddr pe._sections = s.virtualaddress + max s.virtualsize s.filesize)
      ∧ m._data.length = maxvirtaddr pe._sections - minvirtaddr pe._sections
      ∧ (∀ s ∈ pe._sections, ∀ k, k < s.filesize →
          m._data.getD (s.virtualaddress - minvirtaddr pe._sections + k) 0
            = f.bytes.getD (s.fileoffset + k) 0)
      ∧ (∀ j, j < m._data.length →
          (∀ s ∈ pe._sections, ¬ (s.virtualaddress - minvirtaddr pe._sections ≤ j
              ∧ j < s.virtualaddress - minvirtaddr pe._sections + s.filesize)) →
          m._data.getD j 0 = 0) := by
  have hend : ∀ s ∈ pe._sections,
      sectionend s = s.virtualaddress + max s.virtualsize s.filesize := by
    intro s hs
    unfold sectionend W32
    exact Nat.mod_eq_of_lt (hsec s hs).2.2.2
  obtain ⟨hmin1, smin, hsmin, hmin2⟩ := minvirtaddr_least pe._sections hne
  obtain ⟨hmax1, smax, hsmax, hmax2⟩ := maxvirtaddr_greatest pe._sections hne
  have hmaxlt : maxvirtaddr pe._sections < W32 := by
    rw [hmax2, hend smax hsmax]
    exact (hsec smax hsmax).2.2.2
  have hminmax : minvirtaddr pe._sections ≤ maxvirtaddr pe._sections := by
    have h1 := hmin1 smax hsmax
    have h2 := hmax1 smax hsmax
    rw [hend smax hsmax] at h2
    omega
  have hoff : ∀ s ∈ pe._sections, sub32 s.virtualaddress (minvirtaddr pe._sections)
      = s.virtualaddress - minvirtaddr pe._sections := by
    intro s hs
    apply sub32_of_le _ _ (hmin1 s hs)
    have := (hsec s hs).2.2.2
    unfold W32
    omega
  have hlen0 : sub32 (maxvirtaddr pe._sections) (minvirtaddr pe._sections)
      = maxvirtaddr pe._sections - minvirtaddr pe._sections :=
    sub32_of_le _ _ hminmax hmaxlt
  obtain ⟨d, f1, hd, hdl, hcopy, hframe⟩ := copySections_spec (minvirtaddr pe._sections)
    f.bytes pe._sections f
    (List.replicate (sub32 (maxvirtaddr pe._sections) (minvirtaddr pe._sections)) (0 : Byte))
    rfl
    (fun s hs => by
      obtain ⟨a, b, c, e⟩ := hsec s hs
      refine ⟨a, b, c, ?_⟩
      rw [List.length_replicate, hlen0, hoff s hs]
      have h1 := hmin1 s hs
      have h2 := hmax1 s hs
      rw [hend s hs] at h2
      have h3 : s.filesize ≤ max s.virtualsize s.filesize := Nat.le_max_right _ _
      omega)
    (by
      refine List.Pairwise.imp_of_mem ?_ hdis
      intro a b ha hb hab
      rw [hoff a ha, hoff b hb]
      have h1 := hmin1 a ha
      have h2 := hmin1 b hb
      have h3 : a.filesize ≤ max a.virtualsize a.filesize := Nat.le_max_right _ _
      have h4 : b.filesize ≤ max b.virtualsize b.filesize := Nat.le_max_right _ _
      omega)
  refine ⟨{ _pe := pe,
            _exportsbyname := (indexExports (minvirtaddr pe._sections) pe._exports ([], [])).1,
            _exportsbyordinal := (indexExports (minvirtaddr pe._sections) pe._exports ([], [])).2,
            _data := d },
    ?_, ?_, ⟨smin, hsmin, hmin2⟩, ⟨smax, hsmax, by rw [hmax2, hend smax hsmax]⟩, ?_, ?_, ?_⟩
  · simp only [load_sections, bind, Except.bind, hd,
      vectorAlloc_ok (sub32 (maxvirtaddr pe._sections) (minvirtaddr pe._sections)) 1
        (by rw [Nat.mul_one, hlen0]; exact halloc)]
  · intro s hs
    have h2 := hmax1 s hs
    rw [hend s hs] at h2
    exact ⟨hmin1 s hs, h2⟩
  · show d.length = _
    rw [hdl, List.length_replicate, hlen0]
  · intro s hs k hk
    have := hcopy s hs k hk
    rw [hoff s hs] at this
    exact this
  · intro j _ hj
    show d.getD j 0 = 0
    rw [hframe j (fun s hs => by rw [hoff s hs]; exact hj s hs)]
    simp only [List.getD_eq_getElem?_getD, List.getElem?_replicate]
    split <;> rfl

/-- Witness of `load_sections_layout`: scenario 1, one section with virtual
size `0x1000` and `0x200` bytes `0x90` in the file, gives a buffer of `0x1000`
bytes, `0x200` bytes `0x90` followed by zeros. -/
theorem load_sections_layout_witness :
    (PEFileInfo.parse { bytes := scenario1File, pos := 0 }).toOption.map (fun r => r.1)
        = some scenario1Pe
      ∧ ∃ m, load_sections { bytes := scenario1File, pos := 784 } scenario1Pe = .ok m
        ∧ m._data.length = 0x1000
        ∧ (∀ k, k < 0x200 → m._data.getD k 0 = 0x90)
        ∧ (∀ j, 0x200 ≤ j → j < 0x1000 → m._data.getD j 0 = 0) := by
  refine ⟨by decide!, ?_⟩
  obtain ⟨m, h1, _, _, _, h5, h6, h7⟩ :=
    load_sections_layout { bytes := scenario1File, pos := 784 } scenario1Pe
      (by decide!) (by decide!) (by decide!) (by decide!)
  have hlen : m._data.length = 0x1000 := by rw [h5]; decide!
  refine ⟨m, h1, hlen, ?_, ?_⟩
  · intro k hk
    have h := h6 ⟨272, 0x200, 0x10001000, 0x1000⟩ (by decide!) k hk
    have hmin : (0x10001000 : Nat) - minvirtaddr scenario1Pe._sections + k = k := by
      have : minvirtaddr scenario1Pe._sections = 0x10001000 := by decide!
      rw [this]; omega
    simp only [hmin] at h
    rw [h]
    have hlen0 : (peHeaders 0x10000000 0x1000 0x1000 (0, 0) (0, 0) (0, 0) 0x200).length
        = 272 := by decide!
    have hsplit : scenario1File
        = peHeaders 0x10000000 0x1000 0x1000 (0, 0) (0, 0) (0, 0) 0x200
          ++ List.replicate 0x200 (0x90 : Byte) := by
      simp [scenario1File, peFile]
    rw [hsplit, List.getD_append_right _ _ _ _ (by rw [hlen0]; omega), hlen0]
    simp only [List.getD_eq_getElem?_getD, List.getElem?_replicate]
    have e : 272 + k - 272 = k := by omega
    rw [e, if_pos hk]
    rfl
  · intro j h1 h2
    apply h7 j (by rw [hlen]; exact h2)
    intro s hs
    have hs1 : s = ⟨272, 0x200, 0x10001000, 0x1000⟩ := by
      simpa [scenario1Pe] using hs
    subst hs1
    have : minvirtaddr scenario1Pe._sections = 0x10001000 := by decide!
    simp only [this]
    omega

/-! ## C9: from an RVA to a file offset -/

theorem rva2fileofsLoop_first (va : Nat) (s : sectioninfo) (post : List sectioninfo)
    (hs : s.virtualaddress ≤ va ∧ va < (s.virtualaddress + s.virtualsize) % W32) :
    ∀ (pre : List sectioninfo),
      (∀ x ∈ pre, ¬ (x.virtualaddress ≤ va ∧ va < (x.virtualaddress + x.virtualsize) % W32)) →
      rva2fileofsLoop va (pre ++ s :: post)
        = .ok ((sub32 va s.virtualaddress + s.fileoffset) % W32) := by
  intro pre
  induction pre with
  | nil =>
    intro _
    simp only [List.nil_append, rva2fileofsLoop, if_pos hs]
  | cons x rest ih =>
    intro h
    simp only [List.cons_append, rva2fileofsLoop, if_neg (h x (List.mem_cons_self _ _))]
    exact ih (fun y hy => h y (List.mem_cons_of_mem _ hy))

theorem rva2fileofsLoop_error (va : Nat) : ∀ (secs : List sectioninfo),
    rva2fileofsLoop va secs = .error (.loadererror "invalid offset")
      ↔ ∀ x ∈ secs, ¬ (x.virtualaddress ≤ va ∧ va < (x.virtualaddress + x.virtualsize) % W32) := by
  intro secs
  induction secs with
  | nil => simp [rva2fileofsLoop]
  | cons x rest ih =>
    by_cases hx : x.virtualaddress ≤ va ∧ va < (x.virtualaddress + x.virtualsize) % W32
    · simp only [rva2fileofsLoop, if_pos hx]
      constructor
      · intro h; cases h
      · intro h; exact absurd hx (h x (List.mem_cons_self _ _))
    · simp only [rva2fileofsLoop, if_neg hx, ih]
      constructor
      · intro h y hy
        rcases List.mem_cons.mp hy with rfl | hy
        · exact hx
        · exact h y hy
      · intro h y hy
        exact h y (List.mem_cons_of_mem _ hy)

/-- C9 as stated fails: with preferred base `0xFFFF0000`, the section at
virtual address `0xFFFFF000` with virtual size `0x2000` and file offset `0x400`
contains preferred_base + rva = `0xFFFFF800` for rva = `0xF800`, but
`rva2fileofs` throws "invalid offset" instead of returning `0xC00`: the end of
the range is taken as a 32-bit value, which is `0x1000`. -/
theorem rva2fileofs_range_wraps :
    (0xFFFFF000 ≤ 0xFFFF0000 + 0xF800 ∧ 0xFFFF0000 + 0xF800 < 0xFFFFF000 + 0x2000)
      ∧ rva2fileofs 0xFFFF0000 [⟨0x400, 0x200, 0xFFFFF000, 0x2000⟩] 0xF800
          = .error (.loadererror "invalid offset") := by
  refine ⟨?_, ?_⟩
  · decide!
  · decide!

/-- C9, amended: for every section list in which every section ends below
2^32 (`vaddr + vsize < 2^32`) and every 32-bit rva, with va = (preferred_base
+ rva) mod 2^32: if some section's virtual range `[vaddr, vaddr + vsize)`
contains va, the result is `file_offset + (va - vaddr)` (mod 2^32) of the first
such section in table order; and `rva2fileofs` fails with the "invalid offset"
error if and only if no section's virtual range contains va. -/
theorem rva2fileofs_first_section (vbase rva : Nat) (sections : List sectioninfo)
    (hfit : ∀ s ∈ sections, s.virtualaddress + s.virtualsize < 2 ^ 32) :
    (∀ (pre post : List sectioninfo) (s : sectioninfo),
        sections = pre ++ s :: post →
        (s.virtualaddress ≤ (vbase + rva) % W32
          ∧ (vbase + rva) % W32 < s.virtualaddress + s.virtualsize) →
        (∀ x ∈ pre, ¬ (x.virtualaddress ≤ (vbase + rva) % W32
          ∧ (vbase + rva) % W32 < x.virtualaddress + x.virtualsize)) →
        rva2fileofs vbase sections rva
          = .ok ((s.fileoffset + ((vbase + rva) % W32 - s.virtualaddress)) % W32))
      ∧ (rva2fileofs vbase sections rva = .error (.loadererror "invalid offset")
          ↔ ∀ s ∈ sections, ¬ (s.virtualaddress ≤ (vbase + rva) % W32
              ∧ (vbase + rva) % W32 < s.virtualaddress + s.virtualsize)) := by
  have hmod : ∀ s ∈ sections, (s.virtualaddress + s.virtualsize) % W32
      = s.virtualaddress + s.virtualsize :=
    fun s hs => Nat.mod_eq_of_lt (by unfold W32; exact hfit s hs)
  have hva : (rva + vbase) % W32 = (vbase + rva) % W32 := by rw [Nat.add_comm]
  constructor
  · intro pre post s hsplit hs hpre
    have hmem : s ∈ sections := by rw [hsplit]; simp
    unfold rva2fileofs
    rw [hva, hsplit]
    rw [rva2fileofsLoop_first ((vbase + rva) % W32) s post
      (by rw [hmod s hmem]; exact hs) pre
      (fun x hx => by
        have hx1 : x ∈ sections := by rw [hsplit]; simp [hx]
        rw [hmod x hx1]; exact hpre x hx)]
    have hlt : (vbase + rva) % W32 < W32 := Nat.mod_lt _ (by unfold W32; omega)
    rw [sub32_of_le _ _ hs.1 hlt, Nat.add_comm]
  · unfold rva2fileofs
    rw [hva, rva2fileofsLoop_error]
    constructor
    · intro h s hs
      have := h s hs
      rw [hmod s hs] at this
      exact this
    · intro h s hs
      rw [hmod s hs]
      exact h s hs

/-- Witness of `rva2fileofs_first_section`: two overlapping sections that
both contain the address; the offset is taken in the first. -/
theorem rva2fileofs_first_section_witness :
    rva2fileofs 0x10000000
        [⟨0x400, 0x200, 0x10001000, 0x1000⟩, ⟨0x600, 0x800, 0x10002000, 0x1000⟩,
         ⟨0xE00, 0x200, 0x10002000, 0x2000⟩] 0x2010
      = .ok ((0x600 + ((0x10000000 + 0x2010) % W32 - 0x10002000)) % W32) :=
  (rva2fileofs_first_section 0x10000000 0x2010
    [⟨0x400, 0x200, 0x10001000, 0x1000⟩, ⟨0x600, 0x800, 0x10002000, 0x1000⟩,
     ⟨0xE00, 0x200, 0x10002000, 0x2000⟩] (by decide!)).1
    [⟨0x400, 0x200, 0x10001000, 0x1000⟩] [⟨0xE00, 0x200, 0x10002000, 0x2000⟩]
    ⟨0x600, 0x800, 0x10002000, 0x1000⟩ rfl (by decide!) (by decide!)

/-! ## C10: the import directory -/

theorem readmax_bytes (f : posixfile) (n : Nat) : (f.readmax n).2.bytes = f.bytes := rfl

/-- For a count of at least one byte `readexact` does what its name says: it
gives the `n` bytes from the cursor on and moves the cursor by `n` when the
file holds them, and it throws exactly when fewer than `n` bytes are left. -/
theorem readexact_positive (f : posixfile) (n : Nat) (hn : 0 < n) :
    (f.pos + n ≤ f.bytes.length →
        f.readexact n = .ok ((f.bytes.drop f.pos).take n, { f with pos := f.pos + n }))
      ∧ (f.readexact n = .error (.posixerror "fread") ↔ f.bytes.length < f.pos + n) := by
  constructor
  · exact readexact_ok f n hn
  · unfold posixfile.readexact
    rw [if_neg (by omega)]
    by_cases h : f.pos + n ≤ f.bytes.length
    · rw [if_pos h]
      constructor
      · intro hh; cases hh
      · intro hh; omega
    · rw [if_neg h]
      constructor
      · intro _; omega
      · intro _; rfl

/-- C17, at the failing input n = 0: every file holds at least 0 bytes from
every cursor position, but `readexact(p, 0)` throws `posixerror("fread")`,
because `fread(p, 0, 1, f)` returns 0 and not 1.  So the image
`zeroSizeSectionFile`, whose one section has file size 0, parses but is not
loaded (`LoadLibrary` returns `NULL` with `ERROR_MOD_NOT_FOUND`), and the
export directory of `exportDirFile 1 [0x1000, 0x1004] []`, which has two
addresses and name count 0, is not parsed. -/
theorem readexact_zero_bytes_fails :
    (∀ f : posixfile, f.readexact 0 = .error (.posixerror "fread"))
      ∧ (PEFileInfo.parse { bytes := zeroSizeSectionFile, pos := 0 }).toOption.map
            (fun r => r.1._sections)
          = some [⟨272, 0, 0x10001000, 0x10⟩]
      ∧ loadPhases12 zeroSizeSectionFile = .error (.posixerror "fread")
      ∧ LoadLibrary win32Codes sampleStubs 0x20000000 (some zeroSizeSectionFile)
            { g_lasterror := 0 }
          = some (none, { g_lasterror := 126 })
      ∧ PEFileInfo.parse { bytes := exportDirFile 1 [0x1000, 0x1004] [], pos := 0 }
          = .error (.posixerror "fread") := by
  refine ⟨fun f => rfl, ?_, ?_, ?_, ?_⟩
  · decide!
  · decide!
  · decide!
  · decide!

/-! ## C14: forwarded exports -/

/-- C14, at the failing input: in `exportDirFile 1 [0x1010, 0x1020] [(0x1060,
0)]` both address-table entries lie inside the export directory `[0x1010,
0x1038)`, so both exports are forwarded and keep the virtual address 0; the
first has the name `foo`, the second has ordinal 2 and no name.  After loading
(the buffer has `0x80` bytes) `getprocbyname("foo")` and `getprocbyordinal(2)`
do not report a miss: both return the pointer at offset `0 - min_vaddr` =
`0xEFFFF000` from the buffer base. -/
theorem forwarded_export_is_found :
    (DllModule.create sampleStubs 0x20000000
        (some (exportDirFile 1 [0x1010, 0x1020] [(0x1060, 0)]))).toOption.map
        (fun m => (m._pe._exports, m._data.length,
          m.getprocbyname win32Codes (str "foo") { g_lasterror := 0 },
          m.getprocbyordinal win32Codes 2 { g_lasterror := 0 }))
      = some ([{ name := str "foo", ordinal := 1, virtualaddress := 0 },
               { name := [], ordinal := 2, virtualaddress := 0 }],
              0x80,
              (some 0xEFFFF000, { g_lasterror := 0 }),
              (some 0xEFFFF000, { g_lasterror := 0 })) := by
  decide!

/-! ## C13: the ordinals of the export records -/

/-- C13, at the failing input: the export directory of `exportDirFile 1
[0x1000, 0x1004] [(0x1060, 5)]` has ordinal base 1, two addresses, and one
name whose ordinal-table entry is 5.  The vector is grown to six records; the
record at index 5 gets the ordinal 6, and the records at the indices 2, 3 and
4 keep the ordinal 0 of their value-initialisation, below the ordinal
base. -/
theorem grown_export_ordinals :
    (PEFileInfo.parse
        { bytes := exportDirFile 1 [0x1000, 0x1004] [(0x1060, 5)], pos := 0 }).toOption.map
        (fun r => r.1._exports)
      = some [{ name := [], ordinal := 1, virtualaddress := 0x10001000 },
              { name := [], ordinal := 2, virtualaddress := 0x10001004 },
              { name := [], ordinal := 0, virtualaddress := 0 },
              { name := [], ordinal := 0, virtualaddress := 0 },
              { name := [], ordinal := 0, virtualaddress := 0 },
              { name := str "foo", ordinal := 6, virtualaddress := 0 }]
      ∧ ¬ ((1 : Nat) ≤ ({ name := [], ordinal := 0, virtualaddress := 0 } : exportsymbol).ordinal)
      := by
  refine ⟨?_, ?_⟩
  · decide!
  · decide

/-! ## C15: the base-relocation directory -/

/-- C15, at the failing input: the directory of `emptyBlockFile` is made of
two well-formed blocks, one of block size 8 with no entry and one of block
size 10 with the entry `0x3000`, and its size 18 is the sum of the block sizes.
The parser reads the first block header and then calls `readexact` for 0
bytes, which throws: no relocation is emitted and the image is not loaded.
The same directory without the empty block (`relocFile [0x3000]`) gives the
one relocation. -/
theorem empty_reloc_block_fails :
    PEFileInfo.parse { bytes := emptyBlockFile, pos := 0 } = .error (.posixerror "fread")
      ∧ read_reloc_table 0x10000000 [⟨272, 26, 0x10002000, 0x20⟩]
            { bytes := emptyBlockFile, pos := 272 } 0x2008 18
          = .error (.posixerror "fread")
      ∧ LoadLibrary win32Codes sampleStubs 0x20000000 (some emptyBlockFile)
            { g_lasterror := 0 }
          = some (none, { g_lasterror := 126 })
      ∧ (PEFileInfo.parse { bytes := relocFile [0x3000], pos := 0 }).toOption.map
            (fun r => r.1._relocs)
          = some [⟨0x10002000, 3⟩] := by
  refine ⟨?_, ?_, ?_, ?_⟩
  · decide!
  · decide!
  · decide!
  · decide!

/-! ## C20: the section copy and the end of the buffer -/

/-- C20, at the failing input: `wrapSectionsFile` parses into section A at
`0x10001000` (virtual size `0x10`) and section B at `0xFFFFF000` (virtual size
`0x2000`), each with 4 bytes in the file.  The 32-bit end of B is `0x1000`, so
`maxvirtaddr` is the end of A and the buffer gets `0x10` bytes, while the
bytes of B are read to the offset `0xEFFFE000`: for B,
`(vaddr - min_vaddr) + file_size` is above `max_vaddr - min_vaddr`. -/
theorem section_copy_past_buffer :
    (PEFileInfo.parse { bytes := wrapSectionsFile, pos := 0 }).toOption.map
        (fun r => r.1._sections) = some wrapSections
      ∧ sectionend ⟨316, 4, 0xFFFFF000, 0x2000⟩ = 0x1000
      ∧ minvirtaddr wrapSections = 0x10001000
      ∧ maxvirtaddr wrapSections = 0x10001010
      ∧ sub32 (maxvirtaddr wrapSections) (minvirtaddr wrapSections) = 0x10
      ∧ sub32 0xFFFFF000 (minvirtaddr wrapSections) = 0xEFFFE000
      ∧ ¬ (sub32 0xFFFFF000 (minvirtaddr wrapSections) + 4
            ≤ sub32 (maxvirtaddr wrapSections) (minvirtaddr wrapSections)) := by
  refine ⟨?_, ?_, ?_, ?_, ?_, ?_, ?_⟩
  · decide!
  · decide
  · decide
  · decide
  · decide
  · decide
  · decide

/-! ## C18: the patches of the kinds 0 to 2 -/

theorem load16_eq_word16At (data : List Byte) (t : Nat) : load16 data t = word16At data t := by
  simp [load16, word16At, readBytes, le]

theorem store16_eq_replaceWord16 (data : List Byte) (t v : Nat) (hin : t + 2 ≤ data.length) :
    store16 data t v = replaceWord16 data t v := by
  have hlen : (replaceWord16 data t v).length = data.length := by
    simp only [replaceWord16, List.length_append, List.length_take, List.length_drop,
      List.length_cons, List.length_nil]
    omega
  apply List.ext_getElem
  · rw [hlen]
    simp [store16, writeBytes_length]
  · intro k h1 h2
    have hk : k < data.length := by rw [hlen] at h2; exact h2
    have e1 : (store16 data t v)[k] = (store16 data t v).getD k 0 :=
      (List.getD_eq_getElem _ _ h1).symm
    have e2 : (replaceWord16 data t v)[k] = (replaceWord16 data t v).getD k 0 :=
      (List.getD_eq_getElem _ _ h2).symm
    rw [e1, e2]
    simp only [store16, getD_writeBytes, bytesLE_length]
    unfold replaceWord16
    by_cases hk1 : k < t
    · rw [if_neg (by omega)]
      rw [List.append_assoc, List.getD_append _ _ _ _ (by simp; omega)]
      simp only [List.getD_eq_getElem?_getD, List.getElem?_take, if_pos hk1]
    · by_cases hk2 : k < t + 2
      · rw [if_pos (by omega)]
        rw [List.getD_append _ _ _ _ (by simp; omega),
          List.getD_append_right _ _ _ _ (by simp; omega)]
        have hl : (List.take t data).length = t := by simp; omega
        rw [hl]
        obtain h | h : k - t = 0 ∨ k - t = 1 := by omega
        · rw [h]
          simp [bytesLE, Fin.ofNat]
        · rw [h]
          simp [bytesLE, Fin.ofNat]
      · rw [if_neg (by omega)]
        rw [List.getD_append_right _ _ _ _ (by simp; omega)]
        simp only [List.getD_eq_getElem?_getD, List.getElem?_drop, List.length_append,
          List.length_take, List.length_cons, List.length_nil]
        congr 2
        omega

/-- C18: for every buffer, every delta and every single relocation of kind
0, 1 or 2 whose word lies inside the buffer, the relocation loop gives the
reference patch: kind 0 (ABSOLUTE) gives the buffer back as it is; kind 1
(HIGH) replaces the unaligned 16-bit little-endian word at the target by
(word + (delta >> 16)) mod 2^16; kind 2 (LOW) replaces it by
(word + (delta & 0xFFFF)) mod 2^16; the length of the buffer and all bytes
outside the patched word are unchanged. -/
theorem relocate_kinds_0_to_2 (delta data_rva : Nat) (data : List Byte) (r : relocinfo)
    (hkind : r.type ≤ 2)
    (hin : sub32 r.virtualaddress data_rva + patchWidth r.type ≤ data.length) :
    relocateLoop delta data_rva [r] data
        = .ok (referencePatch r.type delta data (sub32 r.virtualaddress data_rva))
      ∧ (r.type = 0 → referencePatch r.type delta data (sub32 r.virtualaddress data_rva) = data)
      ∧ (r.type = 1 →
          load16 (referencePatch r.type delta data (sub32 r.virtualaddress data_rva))
              (sub32 r.virtualaddress data_rva)
            = (load16 data (sub32 r.virtualaddress data_rva) + delta >>> 16) % 2 ^ 16)
      ∧ (r.type = 2 →
          load16 (referencePatch r.type delta data (sub32 r.virtualaddress data_rva))
              (sub32 r.virtualaddress data_rva)
            = (load16 data (sub32 r.virtualaddress data_rva) + (delta &&& 0xFFFF)) % 2 ^ 16)
      ∧ (referencePatch r.type delta data (sub32 r.virtualaddress data_rva)).length
          = data.length
      ∧ ∀ j, ¬ (sub32 r.virtualaddress data_rva ≤ j
            ∧ j < sub32 r.virtualaddress data_rva + patchWidth r.type) →
          (referencePatch r.type delta data (sub32 r.virtualaddress data_rva)).getD j 0
            = data.getD j 0 := by
  have hshift : delta >>> 16 = delta / 2 ^ 16 := Nat.shiftRight_eq_div_pow delta 16
  have hmask : delta &&& 0xFFFF = delta % 2 ^ 16 := Nat.and_pow_two_sub_one_eq_mod delta 16
  have happ : applyReloc delta data (sub32 r.virtualaddress data_rva) r.type
      = .ok (referencePatch r.type delta data (sub32 r.virtualaddress data_rva)) := by
    obtain h | h | h : r.type = 0 ∨ r.type = 1 ∨ r.type = 2 := by omega
    · rw [h]; rfl
    · rw [h] at hin ⊢
      simp only [patchWidth] at hin
      simp only [applyReloc, referencePatch]
      rw [if_pos hin, store16_eq_replaceWord16 _ _ _ hin, load16_eq_word16At, hshift]
      rfl
    · rw [h] at hin ⊢
      simp only [patchWidth] at hin
      simp only [applyReloc, referencePatch]
      rw [if_pos hin, store16_eq_replaceWord16 _ _ _ hin, load16_eq_word16At, hmask]
      rfl
  obtain ⟨hlen, hframe⟩ := applyReloc_frame _ _ _ _ _ happ
  refine ⟨?_, ?_, ?_, ?_, hlen, hframe⟩
  · simp only [relocateLoop, bind, Except.bind, happ]
  · intro h; rw [h]; rfl
  · intro h
    rw [h] at hin happ ⊢
    simp only [patchWidth] at hin
    simp only [applyReloc, if_pos hin, Except.ok.injEq] at happ
    rw [← happ, load16_store16 _ _ _ hin, Nat.mod_mod]
    rfl
  · intro h
    rw [h] at hin happ ⊢
    simp only [patchWidth] at hin
    simp only [applyReloc, if_pos hin, Except.ok.injEq] at happ
    rw [← happ, load16_store16 _ _ _ hin, Nat.mod_mod]
    rfl

/-- Witness of `relocate_kinds_0_to_2`: a HIGH relocation of the word at
offset 2 of an eight-byte buffer, with delta `0x12345678`. -/
theorem relocate_kinds_0_to_2_witness :
    relocateLoop 0x12345678 0x10002000 [⟨0x10002002, 1⟩] [0, 0, 0xff, 0xff, 5, 6, 7, 8]
      = .ok (referencePatch 1 0x12345678 [0, 0, 0xff, 0xff, 5, 6, 7, 8]
              (sub32 0x10002002 0x10002000)) :=
  (relocate_kinds_0_to_2 0x12345678 0x10002000 [0, 0, 0xff, 0xff, 5, 6, 7, 8]
    ⟨0x10002002, 1⟩ (by decide) (by decide)).1

/-! ## C11: binding the imports -/

theorem importLoop_frame (st : Stubs) (data_rva lo hi : Nat) :
    ∀ (imports : List importsymbol) (data : List Byte),
      (∀ x ∈ imports, sub32 x.virtualaddress data_rva + 4 ≤ data.length) →
      (∀ x ∈ imports, sub32 x.virtualaddress data_rva + 4 ≤ lo
        ∨ hi ≤ sub32 x.virtualaddress data_rva) →
      ∃ d, importLoop st data_rva imports data = .ok d ∧ d.length = data.length
        ∧ ∀ k, lo ≤ k → k < hi → d.getD k 0 = data.getD k 0 := by
  intro imports
  induction imports with
  | nil => intro data _ _; exact ⟨data, rfl, rfl, fun _ _ _ => rfl⟩
  | cons i rest ih =>
    intro data hinb hdis
    have hlen1 : (store32 data (sub32 i.virtualaddress data_rva)
        (stubFor st i.name % W32)).length = data.length := by
      simp [store32, writeBytes_length]
    obtain ⟨d, hd, hl, hf⟩ := ih
      (store32 data (sub32 i.virtualaddress data_rva) (stubFor st i.name % W32))
      (fun x hx => by rw [hlen1]; exact hinb x (List.mem_cons_of_mem _ hx))
      (fun x hx => hdis x (List.mem_cons_of_mem _ hx))
    refine ⟨d, ?_, by rw [hl, hlen1], fun k h1 h2 => ?_⟩
    · unfold importLoop
      rw [if_pos (hinb i (List.mem_cons_self _ _))]
      exact hd
    · rw [hf k h1 h2]
      simp only [store32, getD_writeBytes, bytesLE_length]
      rw [if_neg]
      have := hdis i (List.mem_cons_self _ _)
      omega

theorem importLoop_ok (st : Stubs) (data_rva : Nat) (imports : List importsymbol)
    (data : List Byte)
    (hinb : ∀ x ∈ imports, sub32 x.virtualaddress data_rva + 4 ≤ data.length) :
    ∃ d, importLoop st data_rva imports data = .ok d ∧ d.length = data.length := by
  obtain ⟨d, hd, hl, _⟩ := importLoop_frame st data_rva 0 0 imports data hinb
    (fun x _ => Or.inr (Nat.zero_le _))
  exact ⟨d, hd, hl⟩

theorem importLoop_append (st : Stubs) (data_rva : Nat) :
    ∀ (pre post : List importsymbol) (data d1 : List Byte),
      importLoop st data_rva pre data = .ok d1 →
      importLoop st data_rva (pre ++ post) data = importLoop st data_rva post d1 := by
  intro pre
  induction pre with
  | nil => intro post data d1 h; cases h; rfl
  | cons i rest ih =>
    intro post data d1 h
    simp only [List.cons_append, importLoop] at h ⊢
    split at h
    · rename_i hin
      rw [if_pos hin]
      exact ih post _ _ h
    · cases h

theorem importLoop_slot (st : Stubs) (data_rva : Nat) (pre post : List importsymbol)
    (i : importsymbol) (data : List Byte)
    (hinb : ∀ x ∈ pre ++ i :: post, sub32 x.virtualaddress data_rva + 4 ≤ data.length)
    (hdis : ∀ x ∈ post, sub32 x.virtualaddress data_rva + 4 ≤ sub32 i.virtualaddress data_rva
      ∨ sub32 i.virtualaddress data_rva + 4 ≤ sub32 x.virtualaddress data_rva) :
    ∃ d, importLoop st data_rva (pre ++ i :: post) data = .ok d
      ∧ d.length = data.length
      ∧ load32 d (sub32 i.virtualaddress data_rva) = stubFor st i.name % W32 := by
  have hin : sub32 i.virtualaddress data_rva + 4 ≤ data.length :=
    hinb i (List.mem_append_right _ (List.mem_cons_self _ _))
  obtain ⟨d1, hd1, hl1⟩ := importLoop_ok st data_rva pre data
    (fun x hx => hinb x (List.mem_append_left _ hx))
  have hlen2 : (store32 d1 (sub32 i.virtualaddress data_rva)
      (stubFor st i.name % W32)).length = d1.length := by
    simp [store32, writeBytes_length]
  obtain ⟨d3, hd3, hl3, hf3⟩ := importLoop_frame st data_rva
    (sub32 i.virtualaddress data_rva) (sub32 i.virtualaddress data_rva + 4) post
    (store32 d1 (sub32 i.virtualaddress data_rva) (stubFor st i.name % W32))
    (fun x hx => by
      rw [hlen2, hl1]
      exact hinb x (List.mem_append_right _ (List.mem_cons_of_mem _ hx)))
    hdis
  refine ⟨d3, ?_, by rw [hl3, hlen2, hl1], ?_⟩
  · rw [importLoop_append st data_rva pre (i :: post) data d1 hd1]
    simp only [importLoop]
    rw [if_pos (by rw [hl1]; exact hin)]
    exact hd3
  · rw [load32_congr _ _ _ hf3,
      load32_store32 _ _ _ (by rw [hl1]; exact hin), Nat.mod_mod]

theorem stubFor_unrecognised (st : Stubs) (name : CString) (h : name ∉ recognisedNames) :
    stubFor st name = st.dummy := by
  simp only [recognisedNames, List.mem_cons, List.mem_singleton, not_or, List.mem_nil_iff,
    or_false] at h
  obtain ⟨h1, h2, h3, h4, h5, h6, h7⟩ := h
  simp only [stubFor, if_neg h1, if_neg h2, if_neg h3, if_neg h4, if_neg h5, if_neg h6,
    if_neg h7]

/-- C11 as stated fails: `importNameFile (str "_adjust_fdiv")` imports the one
name `_adjust_fdiv`, which is none of the six names with an implementation.
After loading, the slot of the record holds the address of the stub
`undefined`, which prints a message, and not that of the no-op stub
`dummy`. -/
theorem adjust_fdiv_gets_other_stub :
    (DllModule.create sampleStubs 0x20000000
        (some (importNameFile (str "_adjust_fdiv")))).toOption.map
        (fun m => (m._pe._imports,
          load32 m._data (sub32 0x10001050 (minvirtaddr m._pe._sections))))
      = some ([{ dllname := str "k.dll", name := str "_adjust_fdiv", ordinal := none,
                 virtualaddress := 0x10001050 }], sampleStubs.undefined)
      ∧ sampleStubs.undefined ≠ sampleStubs.dummy
      ∧ str "_adjust_fdiv" ∉ [str "LocalAlloc", str "LocalFree", str "malloc", str "free",
          str "SetLastError", str "DisableThreadLibraryCalls"] := by
  refine ⟨?_, ?_, ?_⟩
  · decide!
  · decide
  · decide!

/-- C11, amended: when the slots of all import records lie inside the
buffer, Phase 4 completes, and for every import record whose slot is not
overlapped by the slot of a later import record the 32-bit little-endian word
at buffer offset `import.vaddr - min_vaddr` is the stub pointer chosen for the
record, where the names LocalAlloc, LocalFree, DisableThreadLibraryCalls,
SetLastError, malloc and free map to their internal implementations, the name
`_adjust_fdiv` maps to the stub `undefined`, every other name maps to the
no-op stub `dummy`, and so does the empty name of an import by ordinal. -/
theorem import_binds_slot (st : Stubs) (m : DllModule) (pre post : List importsymbol)
    (i : importsymbol)
    (himp : m._pe._imports = pre ++ i :: post)
    (hinb : ∀ x ∈ m._pe._imports,
      sub32 x.virtualaddress (minvirtaddr m._pe._sections) + 4 ≤ m._data.length)
    (hdis : ∀ x ∈ post,
      sub32 x.virtualaddress (minvirtaddr m._pe._sections) + 4
          ≤ sub32 i.virtualaddress (minvirtaddr m._pe._sections)
      ∨ sub32 i.virtualaddress (minvirtaddr m._pe._sections) + 4
          ≤ sub32 x.virtualaddress (minvirtaddr m._pe._sections)) :
    (∃ m1, DllModule.import_ st m = .ok m1
        ∧ m1._data.length = m._data.length
        ∧ load32 m1._data (sub32 i.virtualaddress (minvirtaddr m._pe._sections))
            = stubFor st i.name % W32)
      ∧ stubFor st (str "LocalAlloc") = st.LocalAlloc
      ∧ stubFor st (str "LocalFree") = st.LocalFree
      ∧ stubFor st (str "DisableThreadLibraryCalls") = st.DisableThreadLibraryCalls
      ∧ stubFor st (str "SetLastError") = st.SetLastError
      ∧ stubFor st (str "malloc") = st.malloc
      ∧ stubFor st (str "free") = st.free
      ∧ stubFor st (str "_adjust_fdiv") = st.undefined
      ∧ (∀ name, name ∉ recognisedNames → stubFor st name = st.dummy)
      ∧ stubFor st [] = st.dummy := by
  refine ⟨?_, ?_, ?_, ?_, ?_, ?_, ?_, ?_, stubFor_unrecognised st, ?_⟩
  · rw [himp] at hinb
    obtain ⟨d, hd, hl, hw⟩ := importLoop_slot st (minvirtaddr m._pe._sections % W32)
      pre post i m._data
      (by intro x hx; rw [sub32_mod_right]; exact hinb x hx)
      (by intro x hx; simp only [sub32_mod_right]; exact hdis x hx)
    rw [sub32_mod_right] at hw
    refine ⟨{ m with _data := d }, ?_, hl, hw⟩
    simp only [DllModule.import_, bind, Except.bind, himp, hd]
  · rfl
  · unfold stubFor; rw [if_neg (by decide!), if_pos rfl]
  · unfold stubFor; rw [if_neg (by decide!), if_neg (by decide!), if_pos rfl]
  · unfold stubFor
    rw [if_neg (by decide!), if_neg (by decide!), if_neg (by decide!), if_pos rfl]
  · unfold stubFor
    rw [if_neg (by decide!), if_neg (by decide!), if_neg (by decide!), if_neg (by decide!),
      if_pos rfl]
  · unfold stubFor
    rw [if_neg (by decide!), if_neg (by decide!), if_neg (by decide!), if_neg (by decide!),
      if_neg (by decide!), if_pos rfl]
  · unfold stubFor
    rw [if_neg (by decide!), if_neg (by decide!), if_neg (by decide!), if_neg (by decide!),
      if_neg (by decide!), if_neg (by decide!), if_pos rfl]
  · exact stubFor_unrecognised st [] (by decide!)

/-- Witness of `import_binds_slot`: the slot of `malloc` in the module of
`importFile [0x1060, 0x80000005]`, a scenario-4 image, holds the address of
the host `malloc`. -/
theorem import_binds_slot_witness :
    loadPhases12 (importFile [0x1060, 0x80000005]) = .ok importModule
      ∧ ∃ m1, DllModule.import_ sampleStubs importModule = .ok m1
        ∧ m1._data.length = importModule._data.length
        ∧ load32 m1._data (sub32 0x10001050 (minvirtaddr importModule._pe._sections))
            = stubFor sampleStubs (str "malloc") % W32 :=
  ⟨by decide!,
   (import_binds_slot sampleStubs importModule []
    [{ dllname := str "k.dll", name := [], ordinal := some 5, virtualaddress := 0x10001054 }]
    { dllname := str "k.dll", name := str "malloc", ordinal := none,
      virtualaddress := 0x10001050 }
    (by decide!) (by decide!) (by decide!)).1⟩

/-! ## C16: the bounds of the sections -/

theorem u32At_lt (bs : List Byte) (o : Nat) : u32At bs o < 2 ^ 32 := by
  unfold u32At
  have h := le_lt ((bs.drop o).take 4)
  have hl : ((bs.drop o).take 4).length ≤ 4 := by
    rw [List.length_take]; exact Nat.min_le_left _ _
  have hp : 256 ^ ((bs.drop o).take 4).length ≤ 256 ^ 4 :=
    Nat.pow_le_pow_right (by omega) hl
  have e : (256 : Nat) ^ 4 = 2 ^ 32 := by norm_num
  omega

theorem u32At_take_drop (bs : List Byte) (o n k : Nat) (h : k + 4 ≤ n) :
    u32At ((bs.drop o).take n) k = u32At bs (o + k) := by
  unfold u32At
  rw [List.drop_take, List.take_take, List.drop_drop, Nat.min_eq_left (by omega)]

theorem u16At_take_drop (bs : List Byte) (o n k : Nat) (h : k + 2 ≤ n) :
    u16At ((bs.drop o).take n) k = u16At bs (o + k) := by
  unfold u16At
  rw [List.drop_take, List.take_take, List.drop_drop, Nat.min_eq_left (by omega)]

theorem seek_inv (f f1 : posixfile) (o : Nat) (h : f.seek o = .ok f1) :
    o % W32 < 2 ^ 31 ∧ f1 = { f with pos := o % W32 } := by
  unfold posixfile.seek at h
  split at h
  · rename_i hlt
    cases h
    exact ⟨hlt, rfl⟩
  · cases h

theorem readexact_inv (f : posixfile) (n : Nat) (r : List Byte × posixfile)
    (h : f.readexact n = .ok r) :
    0 < n ∧ f.pos + n ≤ f.bytes.length ∧ r.2 = { f with pos := f.pos + n } := by
  unfold posixfile.readexact at h
  split at h
  · cases h
  · split at h
    · rename_i h0 hle
      cases h
      exact ⟨by omega, hle, rfl⟩
    · cases h

theorem readexact_inv_bytes (f : posixfile) (n : Nat) (r : List Byte × posixfile)
    (h : f.readexact n = .ok r) : r.1 = (f.bytes.drop f.pos).take n := by
  unfold posixfile.readexact at h
  split at h
  · cases h
  · split at h
    · cases h
      rfl
    · cases h

/-- The preferred base and the sections of a parsed image are the fields of
the PE header and of the section table in the file. -/
theorem parse_sections (f f1 : posixfile) (pe : PEFileInfo)
    (h : PEFileInfo.parse f = .ok (pe, f1)) :
    pe._vbase = preferredBaseOf f.bytes
      ∧ pe._sections = (List.range (sectionCountOf f.bytes)).map
          (sectionOfO32 (preferredBaseOf f.bytes)
            ((f.bytes.drop (sectionTableOf f.bytes)).take (40 * sectionCountOf f.bytes))) := by
  unfold PEFileInfo.parse at h
  simp only [bind, Except.bind] at h
  cases h1 : f.seek 0 with
  | error e => rw [h1] at h; cases h
  | ok g1 =>
    obtain ⟨_, hg1⟩ := seek_inv _ _ _ h1
    rw [h1] at h
    simp only at h
    cases h2 : g1.readexact 64 with
    | error e => rw [h2] at h; cases h
    | ok mz =>
      obtain ⟨_, hmz, hmz2⟩ := readexact_inv _ _ _ h2
      have hmz1 := readexact_inv_bytes _ _ _ h2
      rw [h2] at h
      simp only at h
      have hlfa : u32At mz.1 60 = lfanewOf f.bytes := by
        rw [hmz1, hg1]
        simp only [Nat.zero_mod, List.drop_zero]
        have := u32At_take_drop f.bytes 0 64 60 (by omega)
        simpa [lfanewOf] using this
      rw [hlfa] at h
      cases h3 : mz.2.seek (lfanewOf f.bytes) with
      | error e => rw [h3] at h; cases h
      | ok g2 =>
        obtain ⟨_, hg2⟩ := seek_inv _ _ _ h3
        rw [h3] at h
        simp only at h
        have hlt : lfanewOf f.bytes % W32 = lfanewOf f.bytes :=
          Nat.mod_eq_of_lt (by unfold W32 lfanewOf; exact u32At_lt _ _)
        cases h4 : g2.readexact 120 with
        | error e => rw [h4] at h; cases h
        | ok pehdr =>
          obtain ⟨_, hpe, hpe2⟩ := readexact_inv _ _ _ h4
          have hpe1 := readexact_inv_bytes _ _ _ h4
          rw [h4] at h
          simp only at h
          have hg2b : g2.bytes = f.bytes := by rw [hg2, hmz2, hg1]
          have hg2p : g2.pos = lfanewOf f.bytes := by rw [hg2]; exact hlt
          rw [hg2b, hg2p] at hpe1
          have hvb : u32At pehdr.1 52 = preferredBaseOf f.bytes := by
            rw [hpe1, u32At_take_drop _ _ _ _ (by omega)]
            rfl
          have hcnt : u16At pehdr.1 6 = sectionCountOf f.bytes := by
            rw [hpe1, u16At_take_drop _ _ _ _ (by omega)]
            rfl
          have hopt : u16At pehdr.1 20 = u16At f.bytes (lfanewOf f.bytes + 20) := by
            rw [hpe1, u16At_take_drop _ _ _ _ (by omega)]
          rw [hvb, hcnt, hopt] at h
          split at h
          · cases h
          · rename_i info hinfo
            obtain ⟨_, _, hinfo2⟩ := readexact_inv _ _ _ hinfo
            split at h
            · cases h
            · rename_i g3 h5
              obtain ⟨_, hg3⟩ := seek_inv _ _ _ h5
              split at h
              · cases h
              · rename_i o32 h6
                have ho32 := readexact_inv_bytes _ _ _ h6
                have hg3b : g3.bytes = f.bytes := by rw [hg3, hinfo2, hpe2, hg2b]
                have hg3p : g3.pos = sectionTableOf f.bytes := by
                  rw [hg3]
                  simp only [sectionTableOf, Nat.mod_mod]
                rw [hg3b, hg3p] at ho32
                rw [ho32] at h
                repeat' (split at h <;> try (cases h; done))
                all_goals (cases h; exact ⟨rfl, rfl⟩)

/-- C16 as stated fails: `emptyDirsFile`, a scenario-1 image, has preferred
base `0x10000000` and one section at RVA `0x1000` with virtual size `0x10`.
The image extent is `0x10`, so preferred_base + image_extent is `0x10000010`,
below the end `0x10001010` of the section. -/
theorem section_end_above_base_plus_extent :
    (PEFileInfo.parse { bytes := emptyDirsFile, pos := 0 }).toOption.map
        (fun r => (r.1._vbase, r.1._sections))
      = some (0x10000000, [⟨272, 4, 0x10001000, 0x10⟩])
      ∧ maxvirtaddr [⟨272, 4, 0x10001000, 0x10⟩] - minvirtaddr [⟨272, 4, 0x10001000, 0x10⟩]
          = 0x10
      ∧ ¬ (0x10001000 + 0x10 ≤ 0x10000000
            + (maxvirtaddr [⟨272, 4, 0x10001000, 0x10⟩]
                - minvirtaddr [⟨272, 4, 0x10001000, 0x10⟩])) := by
  refine ⟨?_, ?_, ?_⟩
  · decide!
  · decide
  · decide

/-- C16, amended: for every parsed image whose sections end below 2^32, the
preferred base is the field of the PE header, there is one section for every
entry of the section table, and the section of entry `i` has virtual_address =
(preferred_base + RVA) mod 2^32, RVA being the field of that entry in the
file, so virtual_address >= preferred_base when preferred_base + RVA is below
2^32, and the virtual size of that entry; it satisfies min_vaddr <=
virtual_address and virtual_address + virtual_size <= min_vaddr +
image_extent, which is max_vaddr, where image_extent is the span from the
minimum section vaddr to the maximum of vaddr + max(vsize, fsize).  The bound
is taken from the lowest section, not from the preferred base. -/
theorem section_bounds (f f1 : posixfile) (pe : PEFileInfo)
    (hparse : PEFileInfo.parse f = .ok (pe, f1))
    (hfit : ∀ s ∈ pe._sections, s.virtualaddress + max s.virtualsize s.filesize < 2 ^ 32) :
    pe._vbase = preferredBaseOf f.bytes
      ∧ pe._sections.length = sectionCountOf f.bytes
      ∧ ∀ (i : Nat) (s : sectioninfo), pe._sections[i]? = some s →
          s.virtualaddress = (pe._vbase + sectionRvaOf f.bytes i) % W32
          ∧ s.virtualsize = sectionVsizeOf f.bytes i
          ∧ (pe._vbase + sectionRvaOf f.bytes i < 2 ^ 32 → pe._vbase ≤ s.virtualaddress)
          ∧ minvirtaddr pe._sections ≤ s.virtualaddress
          ∧ s.virtualaddress + s.virtualsize
              ≤ minvirtaddr pe._sections
                + sub32 (maxvirtaddr pe._sections) (minvirtaddr pe._sections)
          ∧ minvirtaddr pe._sections
                + sub32 (maxvirtaddr pe._sections) (minvirtaddr pe._sections)
              = maxvirtaddr pe._sections := by
  obtain ⟨hvb, hsecs⟩ := parse_sections f f1 pe hparse
  refine ⟨hvb, by rw [hsecs, List.length_map, List.length_range], ?_⟩
  intro i s hi
  have hs : s ∈ pe._sections := List.getElem?_mem hi
  have hne : pe._sections ≠ [] := List.ne_nil_of_mem hs
  obtain ⟨hmin1, _, _, _⟩ := minvirtaddr_least pe._sections hne
  obtain ⟨hmax1, smax, hsmax, hmax2⟩ := maxvirtaddr_greatest pe._sections hne
  have hend : ∀ x ∈ pe._sections,
      sectionend x = x.virtualaddress + max x.virtualsize x.filesize := by
    intro x hx
    unfold sectionend W32
    exact Nat.mod_eq_of_lt (hfit x hx)
  have hmaxlt : maxvirtaddr pe._sections < W32 := by
    rw [hmax2, hend smax hsmax]
    exact hfit smax hsmax
  have hminmax : minvirtaddr pe._sections ≤ maxvirtaddr pe._sections := by
    have h1 := hmin1 smax hsmax
    have h2 := hmax1 smax hsmax
    rw [hend smax hsmax] at h2
    omega
  have hext := sub32_of_le _ _ hminmax hmaxlt
  have hi2 := hi
  rw [hsecs, List.getElem?_map] at hi2
  have hilt : i < sectionCountOf f.bytes := by
    by_contra hcon
    rw [List.getElem?_eq_none (by rw [List.length_range]; omega)] at hi2
    cases hi2
  rw [List.getElem?_range hilt] at hi2
  have hse : s = sectionOfO32 (preferredBaseOf f.bytes)
      ((f.bytes.drop (sectionTableOf f.bytes)).take (40 * sectionCountOf f.bytes)) i :=
    (Option.some.inj hi2).symm
  have hva : s.virtualaddress = (pe._vbase + sectionRvaOf f.bytes i) % W32 := by
    rw [hse, hvb]
    show (preferredBaseOf f.bytes + u32At _ (40 * i + 12)) % W32 = _
    rw [u32At_take_drop _ _ _ _ (by omega)]
    rfl
  have hvs : s.virtualsize = sectionVsizeOf f.bytes i := by
    rw [hse]
    show u32At _ (40 * i + 8) = _
    rw [u32At_take_drop _ _ _ _ (by omega)]
    rfl
  refine ⟨hva, hvs, ?_, hmin1 s hs, ?_, ?_⟩
  · intro hlt
    rw [hva, Nat.mod_eq_of_lt (by unfold W32; exact hlt)]
    omega
  · rw [hext]
    have h2 := hmax1 s hs
    rw [hend s hs] at h2
    have h3 : s.virtualsize ≤ max s.virtualsize s.filesize := Nat.le_max_left _ _
    omega
  · rw [hext]
    omega

/-- Witness of `section_bounds`: the section of `emptyDirsFile`, entry 0 of
its section table, with RVA `0x1000` and virtual size `0x10`. -/
theorem section_bounds_witness :
    sectionRvaOf emptyDirsFile 0 = 0x1000
      ∧ sectionVsizeOf emptyDirsFile 0 = 0x10
      ∧ emptyDirsModule._pe._vbase = preferredBaseOf emptyDirsFile
      ∧ emptyDirsModule._pe._sections.length = sectionCountOf emptyDirsFile
      ∧ ∀ (i : Nat) (s : sectioninfo), emptyDirsModule._pe._sections[i]? = some s →
          s.virtualaddress = (emptyDirsModule._pe._vbase + sectionRvaOf emptyDirsFile i) % W32
          ∧ s.virtualsize = sectionVsizeOf emptyDirsFile i
          ∧ (emptyDirsModule._pe._vbase + sectionRvaOf emptyDirsFile i < 2 ^ 32 →
              emptyDirsModule._pe._vbase ≤ s.virtualaddress)
          ∧ minvirtaddr emptyDirsModule._pe._sections ≤ s.virtualaddress
          ∧ s.virtualaddress + s.virtualsize
              ≤ minvirtaddr emptyDirsModule._pe._sections
                + sub32 (maxvirtaddr emptyDirsModule._pe._sections)
                    (minvirtaddr emptyDirsModule._pe._sections)
          ∧ minvirtaddr emptyDirsModule._pe._sections
                + sub32 (maxvirtaddr emptyDirsModule._pe._sections)
                    (minvirtaddr emptyDirsModule._pe._sections)
              = maxvirtaddr emptyDirsModule._pe._sections :=
  ⟨by decide!, by decide!,
   section_bounds { bytes := emptyDirsFile, pos := 0 } { bytes := emptyDirsFile, pos := 272 }
    emptyDirsModule._pe (by decide!) (by decide!)⟩

/-! ## C19: reading up to a zero element -/

theorem elems_add (w : Nat) : ∀ (a b : Nat) (bs : List Byte),
    elems w (a + b) bs = elems w a bs ++ elems w b (bs.drop (w * a)) := by
  intro a
  induction a with
  | zero => intro b bs; simp [elems]
  | succ a ih =>
    intro b bs
    have e : a + 1 + b = (a + b) + 1 := by omega
    rw [e]
    simp only [elems, List.cons_append, ih, List.drop_drop]
    have e2 : w + w * a = w * (a + 1) := by rw [Nat.mul_succ, Nat.add_comm]
    rw [e2]

theorem elems_take (w : Nat) : ∀ (n k : Nat) (bs : List Byte), w * n ≤ k →
    elems w n (bs.take k) = elems w n bs := by
  intro n
  induction n with
  | zero => intro k bs _; rfl
  | succ n ih =>
    intro k bs h
    have hwk : w ≤ k := by
      rw [Nat.mul_succ] at h
      omega
    simp only [elems, List.take_take, Nat.min_eq_left hwk, List.drop_take]
    rw [ih (k - w) (bs.drop w) (by rw [Nat.mul_succ] at h; omega)]

theorem uptoZero_append_zero : ∀ (es more : List Nat) (j : Nat), firstZero es = some j →
    uptoZero (es ++ more) = es.take j := by
  intro es
  induction es with
  | nil => intro more j h; cases h
  | cons e es ih =>
    intro more j h
    unfold firstZero at h
    by_cases he : e = 0
    · rw [if_pos he] at h
      cases h
      simp [uptoZero, he]
    · rw [if_neg he] at h
      cases hz : firstZero es with
      | none => rw [hz] at h; cases h
      | some j0 =>
        rw [hz] at h
        simp only [Option.map_some', Option.some.injEq] at h
        subst h
        have := ih more j0 hz
        simp only [uptoZero] at this ⊢
        rw [List.cons_append, List.takeWhile_cons, if_pos (by simpa using he),
          List.take_succ_cons, this]

theorem uptoZero_append_none : ∀ (es more : List Nat), firstZero es = none →
    uptoZero (es ++ more) = es ++ uptoZero more := by
  intro es
  induction es with
  | nil => intro more _; rfl
  | cons e es ih =>
    intro more h
    unfold firstZero at h
    by_cases he : e = 0
    · rw [if_pos he] at h; cases h
    · rw [if_neg he] at h
      have hz : firstZero es = none := by
        cases hz : firstZero es with
        | none => rfl
        | some j => rw [hz] at h; cases h
      have := ih more hz
      simp only [uptoZero] at this ⊢
      rw [List.cons_append, List.takeWhile_cons, if_pos (by simpa using he), this,
        List.cons_append]

/-- One chunk of at most `w * 256` bytes and what follows it give the whole
elements of the rest of the file. -/
theorem wholeElements_chunk (w : Nat) (hw : 0 < w) (rest : List Byte) :
    wholeElements w rest
      = elems w ((rest.take (w * 256)).length / w) (rest.take (w * 256))
        ++ wholeElements w (rest.drop (rest.take (w * 256)).length) := by
  by_cases hfull : w * 256 ≤ rest.length
  · have hgl : (rest.take (w * 256)).length = w * 256 := by
      rw [List.length_take]; exact Nat.min_eq_left hfull
    have hn : w * 256 / w = 256 := Nat.mul_div_cancel_left 256 hw
    rw [hgl, hn, elems_take w 256 (w * 256) rest (Nat.le_refl _)]
    unfold wholeElements
    have hN : rest.length / w = 256 + (rest.drop (w * 256)).length / w := by
      rw [List.length_drop]
      have h1 : (rest.length - w * 256) / w = rest.length / w - 256 :=
        Nat.sub_mul_div rest.length w 256 hfull
      have h2 : 256 ≤ rest.length / w := by
        rw [Nat.le_div_iff_mul_le hw, Nat.mul_comm]
        exact hfull
      omega
    rw [hN, elems_add]
  · have hgot : rest.take (w * 256) = rest := List.take_of_length_le (by omega)
    rw [hgot, List.drop_length]
    simp [wholeElements, elems]

theorem read_until_zero_loop_spec (w : Nat) (hw : 0 < w) :
    ∀ (fuel : Nat) (f : posixfile) (v : List Nat), f.bytes.length - f.pos < fuel →
      ∃ f1, read_until_zero_loop w fuel f v
        = .ok (v ++ uptoZero (wholeElements w (f.bytes.drop f.pos)), f1) := by
  intro fuel
  induction fuel with
  | zero => intro f v h; omega
  | succ fuel ih =>
    intro f v hfuel
    have hchunk := wholeElements_chunk w hw (f.bytes.drop f.pos)
    unfold read_until_zero_loop
    simp only [posixfile.readmax]
    cases hz : firstZero (elems w (((f.bytes.drop f.pos).take (w * 256)).length / w)
        ((f.bytes.drop f.pos).take (w * 256))) with
    | some j =>
      simp only
      rw [hchunk, uptoZero_append_zero _ _ j hz]
      exact ⟨_, rfl⟩
    | none =>
      simp only
      by_cases hn : ((f.bytes.drop f.pos).take (w * 256)).length / w > 0
      · rw [if_pos hn]
        have hgot : 0 < ((f.bytes.drop f.pos).take (w * 256)).length := by
          by_contra hcon
          have : ((f.bytes.drop f.pos).take (w * 256)).length = 0 := by omega
          rw [this] at hn
          simp at hn
        have hle : ((f.bytes.drop f.pos).take (w * 256)).length ≤ f.bytes.length - f.pos := by
          rw [List.length_take, List.length_drop]
          exact Nat.min_le_right _ _
        obtain ⟨f1, hf1⟩ := ih
          { f with pos := f.pos + ((f.bytes.drop f.pos).take (w * 256)).length }
          (v ++ elems w (((f.bytes.drop f.pos).take (w * 256)).length / w)
            ((f.bytes.drop f.pos).take (w * 256)))
          (by simp only; omega)
        refine ⟨f1, ?_⟩
        rw [hf1, hchunk, uptoZero_append_none _ _ hz]
        simp only [List.append_assoc, List.drop_drop]
      · rw [if_neg hn]
        have hshort : ((f.bytes.drop f.pos).take (w * 256)).length < w := by
          by_contra hcon
          have : 0 < ((f.bytes.drop f.pos).take (w * 256)).length / w :=
            Nat.div_pos (by omega) hw
          exact hn this
        have hlt : (f.bytes.drop f.pos).length < w * 256 := by
          rw [List.length_take] at hshort
          have hw256 : w ≤ w * 256 := Nat.le_mul_of_pos_right w (by omega)
          omega
        have hgot : (f.bytes.drop f.pos).take (w * 256) = f.bytes.drop f.pos :=
          List.take_of_length_le (by omega)
        have hlast : wholeElements w
            ((f.bytes.drop f.pos).drop ((f.bytes.drop f.pos).take (w * 256)).length) = [] := by
          rw [hgot, List.drop_length]
          simp [wholeElements, elems]
        rw [hchunk, uptoZero_append_none _ _ hz, hlast]
        have hnil : uptoZero [] = [] := rfl
        rw [hnil, List.append_nil]
        exact ⟨_, rfl⟩

theorem uptoZero_split : ∀ (es : List Nat),
    (∃ rest, es = uptoZero es ++ rest ∧ (rest = [] ∨ ∃ t, rest = 0 :: t))
      ∧ (∀ e ∈ uptoZero es, e ≠ 0) := by
  intro es
  induction es with
  | nil => exact ⟨⟨[], rfl, Or.inl rfl⟩, fun e he => by cases he⟩
  | cons x xs ih =>
    by_cases hx : x = 0
    · have hu : uptoZero (x :: xs) = [] := by
        simp only [uptoZero]
        rw [List.takeWhile_cons, if_neg (by simpa using hx)]
      rw [hu]
      exact ⟨⟨x :: xs, rfl, Or.inr ⟨xs, by rw [hx]⟩⟩, fun e he => by cases he⟩
    · have hu : uptoZero (x :: xs) = x :: uptoZero xs := by
        simp only [uptoZero]
        rw [List.takeWhile_cons, if_pos (by simpa using hx)]
      rw [hu]
      obtain ⟨⟨rest, h1, h2⟩, h3⟩ := ih
      refine ⟨⟨rest, ?_, h2⟩, fun e he => ?_⟩
      · rw [List.cons_append, ← h1]
      · rcases List.mem_cons.mp he with rfl | he
        · exact hx
        · exact h3 e he

theorem uptoZero_of_no_zero : ∀ (es : List Nat), (∀ e ∈ es, e ≠ 0) → uptoZero es = es := by
  intro es
  induction es with
  | nil => intro _; rfl
  | cons x xs ih =>
    intro h
    have hx : x ≠ 0 := h x (List.mem_cons_self _ _)
    simp only [uptoZero] at ih ⊢
    rw [List.takeWhile_cons, if_pos (by simpa using hx),
      ih (fun e he => h e (List.mem_cons_of_mem _ he))]

theorem le_eq_zero_iff : ∀ (bs : List Byte), le bs = 0 ↔ ∀ b ∈ bs, b = 0 := by
  intro bs
  induction bs with
  | nil => simp [le]
  | cons b bs ih =>
    simp only [le, List.mem_cons, forall_eq_or_imp]
    constructor
    · intro h
      have h1 : b.val = 0 := by omega
      have h2 : le bs = 0 := by omega
      exact ⟨Fin.ext h1, ih.mp h2⟩
    · intro h
      obtain ⟨h1, h2⟩ := h
      rw [ih.mpr h2, h1]
      rfl

theorem read_until_zero_spec (vbase : Nat) (sections : List sectioninfo) (w : Nat)
    (f : posixfile) (rva p : Nat) (hw : 0 < w)
    (hp : rva2fileofs vbase sections rva = .ok p) (hoff : p < 2 ^ 31) :
    ∃ f1, read_until_zero vbase sections w f rva []
      = .ok (uptoZero (wholeElements w (f.bytes.drop p)), f1) := by
  obtain ⟨f1, hf1⟩ := read_until_zero_loop_spec w hw (f.bytes.length + 1)
    { f with pos := p } [] (by simp only; omega)
  refine ⟨f1, ?_⟩
  simp only [read_until_zero, bind, Except.bind, hp, seek_ok f p hoff]
  rw [hf1]
  rfl

/-- C19: for every file, every start RVA that translates to a file offset p
(a non-negative `off_t`, so p < 2^31), every element width w > 0 (1 for names,
4 for lookup tables) and an empty accumulator, `read_until_zero` returns
without an error, and its result is the sequence of the whole elements from p
on up to but not including the first zero element: the whole elements are the
result followed by nothing or by a rest that starts with a zero element, and
no element of the result is zero.  When no whole element from p to the end of
the file is zero the result is all of them.  An element is zero only when all
its bytes are zero.  The chunks of 256 elements do not show in the result. -/
theorem read_until_zero_result (vbase : Nat) (sections : List sectioninfo) (w : Nat)
    (f : posixfile) (rva p : Nat)
    (hw : 0 < w)
    (hp : rva2fileofs vbase sections rva = .ok p)
    (hoff : p < 2 ^ 31) :
    (∃ f1, read_until_zero vbase sections w f rva []
        = .ok (uptoZero (wholeElements w (f.bytes.drop p)), f1))
      ∧ (∃ rest, wholeElements w (f.bytes.drop p)
            = uptoZero (wholeElements w (f.bytes.drop p)) ++ rest
          ∧ (rest = [] ∨ ∃ t, rest = 0 :: t))
      ∧ (∀ e ∈ uptoZero (wholeElements w (f.bytes.drop p)), e ≠ 0)
      ∧ ((∀ e ∈ wholeElements w (f.bytes.drop p), e ≠ 0) →
          uptoZero (wholeElements w (f.bytes.drop p)) = wholeElements w (f.bytes.drop p))
      ∧ (∀ bs : List Byte, le bs = 0 ↔ ∀ b ∈ bs, b = 0) := by
  exact ⟨read_until_zero_spec vbase sections w f rva p hw hp hoff,
    (uptoZero_split _).1, (uptoZero_split _).2, uptoZero_of_no_zero _, le_eq_zero_iff⟩

/-- Witness of `read_until_zero_result`: the lookup table of `importFile
[0x1060, 0x80000005]` at RVA `0x1028`, file offset 312, read as 4-byte
elements, is the two words in front of the zero word. -/
theorem read_until_zero_result_witness :
    uptoZero (wholeElements 4 ((importFile [0x1060, 0x80000005]).drop 312))
        = [0x1060, 0x80000005]
      ∧ ∃ f1, read_until_zero 0x10000000 [⟨272, 120, 0x10001000, 0x80⟩] 4
          { bytes := importFile [0x1060, 0x80000005], pos := 0 } 0x1028 []
        = .ok (uptoZero (wholeElements 4 ((importFile [0x1060, 0x80000005]).drop 312)), f1) :=
  ⟨by decide!,
    (read_until_zero_result 0x10000000 [⟨272, 120, 0x10001000, 0x80⟩] 4
      { bytes := importFile [0x1060, 0x80000005], pos := 0 } 0x1028 312
      (by decide) (by decide!) (by decide)).1⟩

/-! ## C12: the export directory -/

/-- C22, at the failing input: `fewDirsFile d` is the scenario-1 image with
the number of data directories set to `d`.  The parser reads `min(d, 16)`
entries into `info` and then consults `info[0]`, `info[1]` and `info[5]`
without looking at their number.  With `d` = 1 the entry `info[1]`, and with
`d` = 2, 3, 4 or 5 the entry `info[5]`, lies outside the entries that were
read; with `d` = 6 all three are inside and the image parses as before.  (With
`d` = 0 the parser stops before, in `readexact` for 0 bytes.)  An entry `k` of
`n` entries is outside exactly when `n ≤ k`. -/
theorem directory_index_outside_array :
    [1, 2, 3, 4, 5].map (fun d => PEFileInfo.parse { bytes := fewDirsFile d, pos := 0 })
        = List.replicate 5 (.error .undefined)
      ∧ infoAt (zeros 8) 1 0 = .ok (0, 0)
      ∧ infoAt (zeros 8) 1 1 = .error .undefined
      ∧ infoAt (zeros 40) 5 1 = .ok (0, 0)
      ∧ infoAt (zeros 40) 5 5 = .error .undefined
      ∧ PEFileInfo.parse { bytes := fewDirsFile 6, pos := 0 }
          = PEFileInfo.parse { bytes := emptyDirsFile, pos := 0 }
      ∧ (PEFileInfo.parse { bytes := emptyDirsFile, pos := 0 }).toOption.map
            (fun r => r.1._sections.length) = some 1
      ∧ PEFileInfo.parse { bytes := fewDirsFile 0, pos := 0 } = .error (.posixerror "fread")
      ∧ (∀ (ib : List Byte) (n k : Nat), infoAt ib n k = .error .undefined ↔ n ≤ k) := by
  refine ⟨by decide!, by decide!, by decide!, by decide!, by decide!, by decide!, by decide!,
    by decide!, ?_⟩
  intro ib n k
  unfold infoAt
  constructor
  · intro h
    split at h
    · cases h
    · omega
  · intro h
    rw [if_neg (by omega)]

end DllLoader
